import Mathlib

/-!
Verification of the Shrink Ray daily word-shrinking puzzle (src/src/App.jsx).

Strings from the JavaScript source are modelled as `List Char`; the per-letter
feedback states, the puzzle catalog normalization, the session state machine
and the localStorage persistence layer are embedded as executable functions
below, following the source line by line.  JSON values produced by
`JSON.parse` are modelled by the inductive type `JsValue` (with `undef`
standing for the result of accessing a missing property); the `try/catch`
around `JSON.parse` in `loadStoredState` is modelled by an `Option JsValue`
argument whose `none` case stands for a parse failure or an absent record.
-/

namespace ShrinkRay

/-- The three per-letter feedback states of the feedback engine. -/
inductive LetterState where
  | correct
  | present
  | absent
deriving DecidableEq, Repr

/-- TARGET_LENGTHS from App.jsx line 6. -/
def TARGET_LENGTHS : List Nat := [6, 5, 4, 3]

/-- MAX_RETRIES from App.jsx line 8. -/
def MAX_RETRIES : Nat := 3

/-! ### Character helpers

JavaScript string primitives used by `normalizeWord` and `submitGuess`:
`trim`, `toUpperCase` and the regular expressions.  Character tests are
phrased on code points (`Char.toNat`) so that arithmetic reasoning stays in
`Nat`. -/

/-- Characters removed by String.prototype.trim (the white-space code points
relevant here: space, tab, LF, VT, FF, CR, NBSP, BOM). -/
def isJsSpace (c : Char) : Bool :=
  c.toNat = 32 || c.toNat = 9 || c.toNat = 10 || c.toNat = 11 ||
  c.toNat = 12 || c.toNat = 13 || c.toNat = 160 || c.toNat = 65279

/-- String.prototype.toUpperCase, restricted to the code points the app
manipulates (ASCII). -/
def jsToUpper (c : Char) : Char :=
  if 97 ≤ c.toNat ∧ c.toNat ≤ 122 then Char.ofNat (c.toNat - 32) else c

/-- String.prototype.trim on a character list. -/
def trimChars (s : List Char) : List Char :=
  ((s.dropWhile isJsSpace).reverse.dropWhile isJsSpace).reverse

/-- Test for an uppercase ASCII letter, the character class of /^[A-Z]+$/. -/
def isUpperChar (c : Char) : Bool :=
  65 ≤ c.toNat && c.toNat ≤ 90

/-- The regular expression test /^[A-Z]+$/ (nonempty, all uppercase A-Z). -/
def isUpperWord (w : List Char) : Bool :=
  !w.isEmpty && w.all isUpperChar

/-- Test for an ASCII digit, used by the date regular expression. -/
def isDigitChar (c : Char) : Bool :=
  48 ≤ c.toNat && c.toNat ≤ 57

/-- The regular expression test /^\d\x7b4\x7d-\d\x7b2\x7d-\d\x7b2\x7d$/ used
on puzzle dates. -/
def isDateFormat (s : List Char) : Bool :=
  match s with
  | [y1, y2, y3, y4, d1, m1, m2, d2, a1, a2] =>
    isDigitChar y1 && isDigitChar y2 && isDigitChar y3 && isDigitChar y4 &&
    d1 = '-' && isDigitChar m1 && isDigitChar m2 &&
    d2 = '-' && isDigitChar a1 && isDigitChar a2
  | _ => false

/-! ### Feedback engine (buildFeedback, App.jsx lines 71-98)

The first pass is split into the row of per-position data and the final
content of the `remaining` Map.  `firstPassRow` pairs every target position
with the guess character at that position (`none` when the guess is shorter,
i.e. the JavaScript `guess[i]` is `undefined`) and the state assigned by the
first pass (`correct` when `guess[i] === target[i]`, otherwise the initial
`absent`).  `firstPassRemaining` is the count function of the `remaining`
Map after the first pass: it counts the non-correct positions keyed by their
target letter, exactly as the loop increments them. -/

def firstPassRow : List Char → List Char → List (Option Char × LetterState)
  | _, [] => []
  | [], _t :: ts => (none, LetterState.absent) :: firstPassRow [] ts
  | g :: gs, t :: ts =>
    (some g, if g = t then LetterState.correct else LetterState.absent) ::
      firstPassRow gs ts

def firstPassRemaining : List Char → List Char → Char → Nat
  | _, [] => fun _ => 0
  | [], t :: ts => fun c =>
    (if t = c then 1 else 0) + firstPassRemaining [] ts c
  | g :: gs, t :: ts => fun c =>
    (if g ≠ t ∧ t = c then 1 else 0) + firstPassRemaining gs ts c

/-- Second pass of buildFeedback: walk the row left to right, keep `correct`
positions, and turn a non-correct position into `present` while the
remaining count for its guess letter is positive, decrementing that count
(the Map update `remaining.set(letter, count - 1)`). -/
def secondPass : List (Option Char × LetterState) → (Char → Nat) → List LetterState
  | [], _ => []
  | (g, s) :: rest, rem =>
    if s = LetterState.correct then
      LetterState.correct :: secondPass rest rem
    else
      match g with
      | none => LetterState.absent :: secondPass rest rem
      | some c =>
        if 0 < rem c then
          LetterState.present ::
            secondPass rest (fun x => if x = c then rem x - 1 else rem x)
        else
          LetterState.absent :: secondPass rest rem

/-- buildFeedback (App.jsx lines 71-98). -/
def buildFeedback (guess target : List Char) : List LetterState :=
  secondPass (firstPassRow guess target) (firstPassRemaining guess target)

/-! ### JSON values

Values produced by `JSON.parse`, plus `undef` for the result of reading a
missing property or array slot.  Numbers are modelled as rationals so that
the `Number.isInteger` test in `loadStoredState` is meaningful. -/

inductive JsValue where
  | undef
  | null
  | bool (b : Bool)
  | num (q : Rat)
  | str (s : List Char)
  | arr (elems : List JsValue)
  | obj (fields : List (String × JsValue))

/-- JavaScript truthiness of a JSON value (NaN cannot come out of
JSON.parse, so a number is falsy exactly when it is 0). -/
def truthy : JsValue → Bool
  | JsValue.undef => false
  | JsValue.null => false
  | JsValue.bool b => b
  | JsValue.num q => q ≠ 0
  | JsValue.str s => !s.isEmpty
  | JsValue.arr _ => true
  | JsValue.obj _ => true

/-- Property access `v.key`: `undefined` on anything but an object carrying
the key.  `JSON.parse` keeps the last duplicate key, hence the reversed
lookup. -/
def getField (v : JsValue) (key : String) : JsValue :=
  match v with
  | JsValue.obj fields =>
    match fields.reverse.lookup key with
    | some w => w
    | none => JsValue.undef
  | _ => JsValue.undef

/-- Array.isArray. -/
def isArray : JsValue → Bool
  | JsValue.arr _ => true
  | _ => false

/-- The element list of an array value (only used under `isArray`). -/
def asArray : JsValue → List JsValue
  | JsValue.arr xs => xs
  | _ => []

/-- Indexed array access `xs[i]`, `undefined` beyond the end. -/
def arrGet (xs : List JsValue) (i : Nat) : JsValue :=
  xs.getD i JsValue.undef

/-- Strict equality `v === s` against a known string. -/
def strictEqStr (v : JsValue) (s : List Char) : Bool :=
  match v with
  | JsValue.str t => t = s
  | _ => false

/-! ### Word normalizer and puzzle catalog (App.jsx lines 17-69) -/

/-- normalizeWord (App.jsx lines 17-32).  A non-string value yields the
empty word; otherwise the value is trimmed and upper-cased, must match
/^[A-Z]+$/, and, when `expectedLength` is nonzero (truthy), must have
exactly that length. -/
def normalizeWord (value : JsValue) (expectedLength : Nat) : List Char :=
  match value with
  | JsValue.str s =>
    let normalized := (trimChars s).map jsToUpper
    if isUpperWord normalized then
      if expectedLength ≠ 0 ∧ normalized.length ≠ expectedLength then []
      else normalized
    else []
  | _ => []

/-- PuzzleDefinition produced by the catalog. -/
structure Puzzle where
  date : List Char
  startWord : List Char
  targetWords : List (List Char)
deriving DecidableEq, Repr

/-- The string `''` passed to normalizeWord when `entry.words` is not an
array. -/
def emptyStr : JsValue := JsValue.str []

/-- JavaScript `a \x7c\x7c b` on strings: the first operand when nonempty. -/
def strOr (a b : List Char) : List Char :=
  if a.isEmpty then b else a

/-- typeof v === 'object' (null is also typeof 'object', but every use site
first checks truthiness). -/
def isObjectType : JsValue → Bool
  | JsValue.null => true
  | JsValue.arr _ => true
  | JsValue.obj _ => true
  | _ => false

/-- normalizePuzzle (App.jsx lines 34-69), returning `none` where the source
returns null. -/
def normalizePuzzle (entry : JsValue) : Option Puzzle :=
  if !(truthy entry) || !(isObjectType entry) then none
  else
    let date := match getField entry ("date") with
      | JsValue.str s => s
      | _ => []
    if !(isDateFormat date) then none
    else
      let startWord :=
        strOr (normalizeWord (getField entry ("startWord")) 7)
          (normalizeWord
            (if isArray (getField entry ("words")) then
              arrGet (asArray (getField entry ("words"))) 0
             else emptyStr) 7)
      let targetWords0 : List (List Char) :=
        if truthy (getField entry ("solution")) &&
            isObjectType (getField entry ("solution")) then
          [normalizeWord (getField (getField entry ("solution")) ("six")) 6,
           normalizeWord (getField (getField entry ("solution")) ("five")) 5,
           normalizeWord (getField (getField entry ("solution")) ("four")) 4,
           normalizeWord (getField (getField entry ("solution")) ("three")) 3]
        else []
      let targetWords :=
        if targetWords0.any List.isEmpty && isArray (getField entry ("words")) then
          [normalizeWord (arrGet (asArray (getField entry ("words"))) 1) 6,
           normalizeWord (arrGet (asArray (getField entry ("words"))) 2) 5,
           normalizeWord (arrGet (asArray (getField entry ("words"))) 3) 4,
           normalizeWord (arrGet (asArray (getField entry ("words"))) 4) 3]
        else targetWords0
      if startWord.isEmpty || targetWords.any List.isEmpty then none
      else some { date := date, startWord := startWord, targetWords := targetWords }

/-! ### Session state (App.jsx lines 100-111) -/

/-- A recorded wrong guess with its computed feedback. -/
structure Attempt where
  guess : List Char
  feedback : List LetterState
deriving DecidableEq, Repr

/-- The state the App component tracks for one puzzle: solved guesses, the
per-stage wrong-attempt rows, the shared retry counter and the lockout
flag. -/
structure SessionState where
  guesses : List (List Char)
  attemptsByStep : List (List Attempt)
  totalAttempts : Nat
  lockedOut : Bool
deriving DecidableEq, Repr

/-- createEmptyAttemptsByStep (App.jsx lines 100-102). -/
def createEmptyAttemptsByStep : List (List Attempt) :=
  TARGET_LENGTHS.map (fun _ => [])

/-- createEmptyState (App.jsx lines 104-111). -/
def createEmptyState : SessionState :=
  { guesses := [],
    attemptsByStep := createEmptyAttemptsByStep,
    totalAttempts := 0,
    lockedOut := false }

/-! ### Restoring stored state (loadStoredState, App.jsx lines 120-222)

The loops over `step` from 0 to TARGET_LENGTHS.length - 1 all read
`TARGET_LENGTHS[step]` and `puzzle.targetWords[step]` in lockstep, so they
are modelled as structural recursion over `TARGET_LENGTHS.zip
puzzle.targetWords`, consuming the stored array in parallel.  (Catalog
puzzles always carry exactly four targets; on a malformed puzzle with fewer
targets the JavaScript indexing would yield `undefined` and every comparison
against it fails, which the zip truncation reproduces.)  The labelled
`break outer` once the running total reaches MAX_RETRIES is modelled by the
per-element cap check, which leaves exactly the same rows and total. -/

/-- The loop over stored solved guesses (App.jsx lines 139-146): take stored
entries while they normalize to the stage length and equal the stage
target. -/
def collectValidGuesses : List JsValue → List (Nat × List Char) → List (List Char)
  | _, [] => []
  | raws, (len, target) :: rest =>
    let guess := normalizeWord (raws.headD JsValue.undef) len
    if guess.isEmpty || guess ≠ target then []
    else guess :: collectValidGuesses raws.tail rest

/-- The inner loop over one stored attempt row (App.jsx lines 159-175):
skip entries that do not normalize or that equal the target, cap the running
total at MAX_RETRIES, and recompute feedback. -/
def reconstructRow (raws : List JsValue) (target : List Char) (len : Nat)
    (total : Nat) : List Attempt × Nat :=
  match raws with
  | [] => ([], total)
  | r :: rest =>
    if MAX_RETRIES ≤ total then ([], total)
    else
      let attemptWord := normalizeWord r len
      if attemptWord.isEmpty || attemptWord = target then
        reconstructRow rest target len total
      else
        let tailResult := reconstructRow rest target len (total + 1)
        ({ guess := attemptWord,
           feedback := buildFeedback attemptWord target } :: tailResult.1,
         tailResult.2)

/-- The outer loop over stored attempt rows (App.jsx lines 153-176): a
non-array row is skipped (stays empty), otherwise its attempts are
reconstructed, threading the running total. -/
def reconstructSteps : List JsValue → List (Nat × List Char) → Nat →
    List (List Attempt) × Nat
  | _, [], total => ([], total)
  | rows, (len, target) :: rest, total =>
    let rowRaw := rows.headD JsValue.undef
    if isArray rowRaw then
      let rowResult := reconstructRow (asArray rowRaw) target len total
      let restResult := reconstructSteps rows.tail rest rowResult.2
      (rowResult.1 :: restResult.1, restResult.2)
    else
      let restResult := reconstructSteps rows.tail rest total
      ([] :: restResult.1, restResult.2)

/-- The attempt-reconstruction dispatch of loadStoredState (lines 148-202):
the current per-stage shape when `attemptsByStep` is an array, else the
legacy flat shape when `attempts` is an array and `activeStep` an integer in
range, else nothing. -/
def reconstructAttempts (parsed : JsValue) (puzzle : Puzzle) :
    List (List Attempt) × Nat :=
  if isArray (getField parsed ("attemptsByStep")) then
    reconstructSteps (asArray (getField parsed ("attemptsByStep")))
      (TARGET_LENGTHS.zip puzzle.targetWords) 0
  else
    match getField parsed ("attempts"), getField parsed ("activeStep") with
    | JsValue.arr rawAttempts, JsValue.num q =>
      if q.den = 1 ∧ 0 ≤ q.num ∧ q.num < (TARGET_LENGTHS.length : Int) then
        let step := q.num.toNat
        let rowResult := reconstructRow rawAttempts
          (puzzle.targetWords.getD step []) (TARGET_LENGTHS.getD step 0) 0
        (createEmptyAttemptsByStep.set step rowResult.1, rowResult.2)
      else (createEmptyAttemptsByStep, 0)
    | _, _ => (createEmptyAttemptsByStep, 0)

/-- The early validation of loadStoredState (App.jsx lines 130-137),
phrased as the conjunction whose negation is the disjunctive early-return
condition of the source. -/
def passChecks (parsed : JsValue) (dateString : List Char) (puzzle : Puzzle) :
    Bool :=
  truthy parsed &&
  strictEqStr (getField parsed ("date")) dateString &&
  strictEqStr (getField parsed ("startWord")) puzzle.startWord &&
  isArray (getField parsed ("guesses"))

/-- The reconciliation of the stored total-attempts counter (App.jsx lines
204-206): when the field holds an integer, take the maximum of the
recomputed count and the stored value, capped at MAX_RETRIES; the
computation stays in the integers, as JavaScript numbers do. -/
def reconciledTotal (parsed : JsValue) (puzzle : Puzzle) : Int :=
  match getField parsed ("totalAttempts") with
  | JsValue.num q =>
    if q.den = 1 then
      min (MAX_RETRIES : Int)
        (max ((reconstructAttempts parsed puzzle).2 : Int) q.num)
    else ((reconstructAttempts parsed puzzle).2 : Int)
  | _ => ((reconstructAttempts parsed puzzle).2 : Int)

/-- loadStoredState (App.jsx lines 120-222).  `raw = none` models both an
absent stored record and a `JSON.parse` failure landing in the catch
block.  The final total is clamped exactly as line 216 does; it is never
negative, so the `Int.toNat` is lossless. -/
def loadStoredState (raw : Option JsValue) (dateString : List Char)
    (puzzle : Puzzle) : SessionState :=
  match raw with
  | none => createEmptyState
  | some parsed =>
    if !(passChecks parsed dateString puzzle) then createEmptyState
    else
      let validGuesses := collectValidGuesses (asArray (getField parsed ("guesses")))
        (TARGET_LENGTHS.zip puzzle.targetWords)
      let reconciled : Int := reconciledTotal parsed puzzle
      let solved := TARGET_LENGTHS.length ≤ validGuesses.length
      let lockedOut :=
        if solved then false
        else truthy (getField parsed ("lockedOut")) ||
          truthy (getField parsed ("failed")) ||
          decide ((MAX_RETRIES : Int) ≤ reconciled)
      { guesses := validGuesses,
        attemptsByStep := (reconstructAttempts parsed puzzle).1,
        totalAttempts := (min (MAX_RETRIES : Int) reconciled).toNat,
        lockedOut := lockedOut }

/-- The record the save effect writes to localStorage (App.jsx lines
268-278): attempt rows keep only the guessed words, feedback is not
persisted. -/
def saveRecord (currentDate : List Char) (puzzle : Puzzle) (s : SessionState) :
    JsValue :=
  JsValue.obj
    [("date", JsValue.str currentDate),
     ("startWord", JsValue.str puzzle.startWord),
     ("guesses", JsValue.arr (s.guesses.map JsValue.str)),
     ("attemptsByStep", JsValue.arr (s.attemptsByStep.map
        (fun row => JsValue.arr (row.map (fun a => JsValue.str a.guess))))),
     ("totalAttempts", JsValue.num (s.totalAttempts : Rat)),
     ("lockedOut", JsValue.bool s.lockedOut)]

/-! ### Guess submission (submitGuess, App.jsx lines 307-353) -/

/-- The distinct user-facing outcomes of a submission.  Both the
already-locked rejection and the newly-locking submission show the same
toast text, hence the shared `lockedOutScore` signal; a correct guess shows
no toast (`accepted`). -/
inductive Signal where
  | noPuzzle
  | alreadySolved
  | lockedOutScore (finalScore : Nat)
  | wrongLength (expected : Nat)
  | accepted
  | attemptsLeft (remaining : Nat)
deriving DecidableEq, Repr

/-- finalScoreLength (App.jsx line 304): length of the last solved word, 7
when none is solved. -/
def finalScoreLength (guesses : List (List Char)) : Nat :=
  match guesses.getLast? with
  | some w => w.length
  | none => 7

/-- submitGuess (App.jsx lines 307-353) as a pure transition on the session
state, returning the new state and the emitted signal. -/
def submitGuess (puzzle : Option Puzzle) (s : SessionState)
    (inputValue : List Char) : SessionState × Signal :=
  match puzzle with
  | none => (s, Signal.noPuzzle)
  | some p =>
    let currentStep := s.guesses.length
    if TARGET_LENGTHS.length ≤ currentStep then (s, Signal.alreadySolved)
    else if s.lockedOut then
      (s, Signal.lockedOutScore (finalScoreLength s.guesses))
    else
      let expectedLength := TARGET_LENGTHS.getD currentStep 0
      let targetWord := p.targetWords.getD currentStep []
      let guess := (trimChars inputValue).map jsToUpper
      if guess.length ≠ expectedLength then (s, Signal.wrongLength expectedLength)
      else if guess = targetWord then
        ({ s with guesses := s.guesses ++ [guess] }, Signal.accepted)
      else
        let nextTotal := min MAX_RETRIES (s.totalAttempts + 1)
        let s' : SessionState :=
          { s with
            totalAttempts := nextTotal,
            attemptsByStep := s.attemptsByStep.set currentStep
              ((s.attemptsByStep.getD currentStep []) ++
                [{ guess := guess, feedback := buildFeedback guess targetWord }]) }
        if MAX_RETRIES ≤ nextTotal then
          ({ s' with lockedOut := true },
           Signal.lockedOutScore (finalScoreLength s.guesses))
        else (s', Signal.attemptsLeft (MAX_RETRIES - nextTotal))

/-- Session states reachable from the empty state by guess submissions
against a fixed puzzle.  `handleGameKey` (App.jsx lines 368-396) admits only
the characters A-Z into the input buffer, so submitted inputs are uppercase
alphabetic strings. -/
inductive Reachable (p : Puzzle) : SessionState → Prop where
  | empty : Reachable p createEmptyState
  | submit (s : SessionState) (input : List Char) :
      Reachable p s → input.all isUpperChar = true →
      Reachable p (submitGuess (some p) s input).1

/-! ### Counting helpers for the feedback properties -/

/-- Number of positions of a guess/feedback pairing whose guess letter is
`c` and whose mark is `present` or `correct`. -/
def guessHits (c : Char) (g : List Char) (fb : List LetterState) : Nat :=
  List.countP
    (fun p => decide (p.1 = c ∧
      (p.2 = LetterState.present ∨ p.2 = LetterState.correct)))
    (g.zip fb)

/-- The same count over a first-pass row paired with second-pass output. -/
def rowHits (c : Char) (l : List ((Option Char × LetterState) × LetterState)) : Nat :=
  List.countP
    (fun p => decide (p.1.1 = some c ∧
      (p.2 = LetterState.present ∨ p.2 = LetterState.correct)))
    l

/-- Number of row positions whose guess letter is `c` and which the first
pass marked `correct`. -/
def rowCorrect (c : Char) (l : List (Option Char × LetterState)) : Nat :=
  List.countP
    (fun p => decide (p.1 = some c ∧ p.2 = LetterState.correct)) l

/-- The state a second-pass step assigns to a row entry, for some value of
the remaining count. -/
def stepOut (g : Option Char) (s : LetterState) (rem : Char → Nat) : LetterState :=
  if s = LetterState.correct then LetterState.correct
  else
    match g with
    | none => LetterState.absent
    | some c => if 0 < rem c then LetterState.present else LetterState.absent

/-! ### Concrete records and invariant definitions used by the claims -/

/-- The C5 failing input: a catalog entry with a valid date and a legacy
five-word list whose element 0 normalizes to a 7-letter word and whose
elements 1-4 normalize to words of lengths 6, 5, 4, 3, and no solution
object. -/
def legacyEntry : JsValue :=
  JsValue.obj
    [("date", JsValue.str ("2024-01-01".toList)),
     ("words", JsValue.arr
       [JsValue.str ("PLANETS".toList), JsValue.str ("PLANET".toList),
        JsValue.str ("PLANE".toList), JsValue.str ("PLAN".toList),
        JsValue.str ("PAN".toList)])]

/-- A concrete puzzle used by the witnesses, matching the spec's example. -/
def samplePuzzle : Puzzle :=
  { date := "2024-01-01".toList,
    startWord := "PLANETS".toList,
    targetWords := ["PLANET".toList, "PLANE".toList, "PLAN".toList,
      "PAN".toList] }

/-- A state with two retries already used, for the C2 witness. -/
def twoUsedState : SessionState :=
  { guesses := [],
    attemptsByStep := [[], [], [], []],
    totalAttempts := 2,
    lockedOut := false }

/-- The C4 counterexample record: it matches the active puzzle, records no
solved stages and no attempts, stores totalAttempts 0, but carries a stored
lockedOut flag. -/
def lockedFlagRecord : JsValue :=
  JsValue.obj
    [("date", JsValue.str ("2024-01-01".toList)),
     ("startWord", JsValue.str ("PLANETS".toList)),
     ("guesses", JsValue.arr []),
     ("attemptsByStep", JsValue.arr
       [JsValue.arr [], JsValue.arr [], JsValue.arr [], JsValue.arr []]),
     ("totalAttempts", JsValue.num 0),
     ("lockedOut", JsValue.bool true)]

/-- The stored non-integer total 5/2, as a reduced fraction literal. -/
def halfQ : Rat := Rat.mk' 5 2 (by decide) (by decide)

/-- The C9 counterexample record: passes every check, no stages solved, no
attempts, and a stored numeric but non-integer totalAttempts of 5/2. -/
def halfRecord : JsValue :=
  JsValue.obj
    [("date", JsValue.str ("2024-01-01".toList)),
     ("startWord", JsValue.str ("PLANETS".toList)),
     ("guesses", JsValue.arr []),
     ("attemptsByStep", JsValue.arr
       [JsValue.arr [], JsValue.arr [], JsValue.arr [], JsValue.arr []]),
     ("totalAttempts", JsValue.num halfQ)]

/-- A record with an integer stored total of 2, used as the C9 witness. -/
def intRecord : JsValue :=
  JsValue.obj
    [("date", JsValue.str ("2024-01-01".toList)),
     ("startWord", JsValue.str ("PLANETS".toList)),
     ("guesses", JsValue.arr []),
     ("attemptsByStep", JsValue.arr
       [JsValue.arr [], JsValue.arr [], JsValue.arr [], JsValue.arr []]),
     ("totalAttempts", JsValue.num (2 : Rat))]

/-- No recorded attempt in any stage row carries that stage's target
word. -/
def NoTargetAttempts (p : Puzzle) (s : SessionState) : Prop :=
  ∀ i : Nat, ∀ a ∈ s.attemptsByStep.getD i [],
    a.guess ≠ p.targetWords.getD i []

/-- Well-formedness of a catalog puzzle: exactly four target words of the
stage lengths, all uppercase alphabetic — what normalizePuzzle guarantees
for entries that carry a structured solution. -/
def puzzleWF (p : Puzzle) : Bool :=
  (p.targetWords.length == 4) &&
  (TARGET_LENGTHS.zip p.targetWords).all
    (fun pr => (pr.2.length == pr.1) && isUpperWord pr.2)

/-- The conditions a recorded attempt at stage `i` satisfies. -/
def AttemptOK (p : Puzzle) (i : Nat) (a : Attempt) : Prop :=
  isUpperWord a.guess = true ∧
  a.guess.length = TARGET_LENGTHS.getD i 0 ∧
  a.guess ≠ p.targetWords.getD i [] ∧
  a.feedback = buildFeedback a.guess (p.targetWords.getD i [])

/-- The invariant of states the machine reaches: the solved guesses are the
prefix of targets, there are exactly four attempt rows holding well-formed
wrong attempts, the counter equals the attempt count, bounded by
MAX_RETRIES, and lockout holds exactly on an exhausted counter before the
last stage. -/
def StateWF (p : Puzzle) (s : SessionState) : Prop :=
  s.guesses = p.targetWords.take s.guesses.length ∧
  s.guesses.length ≤ 4 ∧
  s.attemptsByStep.length = 4 ∧
  (∀ i : Nat, ∀ a ∈ s.attemptsByStep.getD i [], AttemptOK p i a) ∧
  s.totalAttempts = (s.attemptsByStep.map List.length).sum ∧
  s.totalAttempts ≤ MAX_RETRIES ∧
  (s.lockedOut = true ↔
    (s.totalAttempts = MAX_RETRIES ∧ s.guesses.length < 4))

/-! ### Lemmas on the feedback engine -/

lemma buildFeedback_example_planed :
    buildFeedback ("PLANED".toList) ("PLANET".toList) =
      [LetterState.correct, LetterState.correct, LetterState.correct,
       LetterState.correct, LetterState.correct, LetterState.absent] := by
  decide

lemma buildFeedback_example_eel :
    buildFeedback ("EEL".toList) ("PEA".toList) =
      [LetterState.absent, LetterState.correct, LetterState.absent] := by
  decide

lemma buildFeedback_example_dup :
    buildFeedback ("ABA".toList) ("AAB".toList) =
      [LetterState.correct, LetterState.present, LetterState.present] := by
  decide

lemma secondPass_length (l : List (Option Char × LetterState)) (rem : Char → Nat) :
    (secondPass l rem).length = l.length := by
  induction l generalizing rem with
  | nil => simp [secondPass]
  | cons p rest ih =>
    obtain ⟨g, s⟩ := p
    by_cases hs : s = LetterState.correct
    · simp [secondPass, hs, ih]
    · cases g with
      | none => simp [secondPass, hs, ih]
      | some c =>
        by_cases h0 : 0 < rem c <;> simp [secondPass, hs, h0, ih]

lemma firstPassRow_length (g t : List Char) :
    (firstPassRow g t).length = t.length := by
  induction t generalizing g with
  | nil => cases g <;> simp [firstPassRow]
  | cons th ts ih => cases g <;> simp [firstPassRow, ih]

lemma buildFeedback_length (g t : List Char) :
    (buildFeedback g t).length = t.length := by
  simp [buildFeedback, secondPass_length, firstPassRow_length]

lemma firstPassRow_getElem (g t : List Char) (i : Nat) (hi : i < t.length) :
    (firstPassRow g t)[i]? =
      some (g[i]?,
        if g[i]? = t[i]? then LetterState.correct else LetterState.absent) := by
  induction t generalizing g i with
  | nil => simp at hi
  | cons th ts ih =>
    cases g with
    | nil =>
      cases i with
      | zero => simp [firstPassRow]
      | succ n =>
        simp only [firstPassRow, List.getElem?_cons_succ]
        simpa using ih [] n (by simpa using hi)
    | cons gh gs =>
      cases i with
      | zero => by_cases hgt : gh = th <;> simp [firstPassRow, hgt]
      | succ n =>
        simp only [firstPassRow, List.getElem?_cons_succ]
        exact ih gs n (by simpa using hi)

lemma secondPass_getElem (l : List (Option Char × LetterState))
    (rem : Char → Nat) (i : Nat) (g : Option Char) (s : LetterState)
    (h : l[i]? = some (g, s)) :
    ∃ rem2 : Char → Nat,
      (secondPass l rem)[i]? = some (stepOut g s rem2) := by
  induction l generalizing rem i with
  | nil => simp at h
  | cons p rest ih =>
    obtain ⟨pg, ps⟩ := p
    cases i with
    | zero =>
      simp only [List.getElem?_cons_zero, Option.some.injEq, Prod.mk.injEq] at h
      obtain ⟨rfl, rfl⟩ := h
      refine ⟨rem, ?_⟩
      by_cases hs : ps = LetterState.correct
      · simp [secondPass, stepOut, hs]
      · cases pg with
        | none => simp [secondPass, stepOut, hs]
        | some c =>
          by_cases h0 : 0 < rem c <;> simp [secondPass, stepOut, hs, h0]
    | succ n =>
      simp only [List.getElem?_cons_succ] at h
      by_cases hs : ps = LetterState.correct
      · obtain ⟨rem2, h2⟩ := ih rem n h
        exact ⟨rem2, by simpa [secondPass, hs] using h2⟩
      · cases pg with
        | none =>
          obtain ⟨rem2, h2⟩ := ih rem n h
          exact ⟨rem2, by simpa [secondPass, hs] using h2⟩
        | some c =>
          by_cases h0 : 0 < rem c
          · obtain ⟨rem2, h2⟩ :=
              ih (fun x => if x = c then rem x - 1 else rem x) n h
            exact ⟨rem2, by simpa [secondPass, hs, h0] using h2⟩
          · obtain ⟨rem2, h2⟩ := ih rem n h
            exact ⟨rem2, by simpa [secondPass, hs, h0] using h2⟩

lemma secondPass_correct_iff (l : List (Option Char × LetterState))
    (rem : Char → Nat) (i : Nat) (g : Option Char) (s : LetterState)
    (h : l[i]? = some (g, s)) :
    ((secondPass l rem)[i]? = some LetterState.correct ↔ s = LetterState.correct) := by
  obtain ⟨rem2, h2⟩ := secondPass_getElem l rem i g s h
  rw [h2]
  by_cases hs : s = LetterState.correct
  · simp [stepOut, hs]
  · cases g with
    | none => simp [stepOut, hs]
    | some c => by_cases h0 : 0 < rem2 c <;> simp [stepOut, hs, h0]

lemma secondPass_none_absent (l : List (Option Char × LetterState))
    (rem : Char → Nat) (i : Nat)
    (h : l[i]? = some (none, LetterState.absent)) :
    (secondPass l rem)[i]? = some LetterState.absent := by
  obtain ⟨rem2, h2⟩ := secondPass_getElem l rem i none LetterState.absent h
  simpa [stepOut] using h2

lemma secondPass_hits_le (l : List (Option Char × LetterState))
    (rem : Char → Nat) (c : Char) :
    rowHits c (l.zip (secondPass l rem)) ≤ rowCorrect c l + rem c := by
  induction l generalizing rem with
  | nil => simp [secondPass, rowHits, rowCorrect]
  | cons p rest ih =>
    obtain ⟨pg, ps⟩ := p
    by_cases hs : ps = LetterState.correct
    · subst hs
      by_cases hc : pg = some c
      · simpa [secondPass, rowHits, rowCorrect, List.countP_cons, hc,
          Nat.add_comm, Nat.add_left_comm] using
          Nat.add_le_add_right (ih rem) 1
      · simpa [secondPass, rowHits, rowCorrect, List.countP_cons, hc] using ih rem
    · cases pg with
      | none =>
        simpa [secondPass, rowHits, rowCorrect, List.countP_cons, hs] using ih rem
      | some d =>
        by_cases h0 : 0 < rem d
        · by_cases hdc : d = c
          · subst hdc
            have h0' := ih (fun x => if x = d then rem x - 1 else rem x)
            have h1 : rowHits d (rest.zip (secondPass rest
                (fun x => if x = d then rem x - 1 else rem x))) ≤
                rowCorrect d rest + (rem d - 1) := by simpa using h0'
            have h2 : rowHits d (((some d, ps) :: rest).zip
                (secondPass ((some d, ps) :: rest) rem)) =
                rowHits d (rest.zip (secondPass rest
                  (fun x => if x = d then rem x - 1 else rem x))) + 1 := by
              simp [secondPass, hs, h0, rowHits, List.countP_cons]
            have h3 : rowCorrect d ((some d, ps) :: rest) = rowCorrect d rest := by
              simp [rowCorrect, List.countP_cons, hs]
            rw [h2, h3]
            omega
          · have h1 := ih (fun x => if x = d then rem x - 1 else rem x)
            have hcd : ¬(c = d) := fun hcd => hdc hcd.symm
            rw [if_neg hcd] at h1
            simpa [secondPass, hs, h0, rowHits, rowCorrect, List.countP_cons,
              hdc] using h1
        · by_cases hdc : d = c
          · subst hdc
            simpa [secondPass, hs, h0, rowHits, rowCorrect,
              List.countP_cons] using ih rem
          · simpa [secondPass, hs, h0, rowHits, rowCorrect, List.countP_cons,
              hdc] using ih rem

lemma rowCorrect_cons (c : Char) (p : Option Char × LetterState)
    (l : List (Option Char × LetterState)) :
    rowCorrect c (p :: l) = rowCorrect c l +
      (if p.1 = some c ∧ p.2 = LetterState.correct then 1 else 0) := by
  simp [rowCorrect, List.countP_cons]

lemma count_cons_char (c th : Char) (ts : List Char) :
    (th :: ts).count c = ts.count c + (if th = c then 1 else 0) := by
  by_cases htc : th = c <;> simp [List.count_cons, htc]

lemma firstPass_count (g t : List Char) (c : Char) :
    rowCorrect c (firstPassRow g t) + firstPassRemaining g t c = t.count c := by
  induction t generalizing g with
  | nil => cases g <;> simp [firstPassRow, firstPassRemaining, rowCorrect]
  | cons th ts ih =>
    cases g with
    | nil =>
      have ihg := ih []
      rw [show firstPassRow [] (th :: ts) =
          (none, LetterState.absent) :: firstPassRow [] ts from rfl,
        rowCorrect_cons, count_cons_char,
        show firstPassRemaining [] (th :: ts) c =
          (if th = c then 1 else 0) + firstPassRemaining [] ts c from rfl]
      simp only [reduceCtorEq, false_and, if_false, Nat.add_zero]
      omega
    | cons gh gs =>
      have ihg := ih gs
      rw [show firstPassRow (gh :: gs) (th :: ts) =
          (some gh, if gh = th then LetterState.correct else LetterState.absent) ::
            firstPassRow gs ts from rfl,
        rowCorrect_cons, count_cons_char,
        show firstPassRemaining (gh :: gs) (th :: ts) c =
          (if gh ≠ th ∧ th = c then 1 else 0) + firstPassRemaining gs ts c from rfl]
      by_cases hgt : gh = th <;> by_cases htc : th = c
      · simp only [hgt, htc]
        simp
        omega
      · simp only [hgt]
        simp [htc]
        omega
      · have hgc : ¬(gh = c) := fun h => hgt (h.trans htc.symm)
        simp [hgt, htc, hgc]
        omega
      · simp [hgt, htc]
        omega

lemma firstPassRow_map_fst (g t : List Char) (h : g.length = t.length) :
    (firstPassRow g t).map Prod.fst = g.map some := by
  induction t generalizing g with
  | nil =>
    cases g with
    | nil => simp [firstPassRow]
    | cons gh gs => simp at h
  | cons th ts ih =>
    cases g with
    | nil => simp at h
    | cons gh gs =>
      simp only [firstPassRow, List.map_cons]
      rw [ih gs (by simpa using h)]

lemma zipHits_eq (c : Char) (g : List Char)
    (l : List (Option Char × LetterState)) (out : List LetterState)
    (h : l.map Prod.fst = g.map some) :
    guessHits c g out = rowHits c (l.zip out) := by
  induction g generalizing l out with
  | nil =>
    have : l = [] := by
      cases l with
      | nil => rfl
      | cons p rest => simp at h
    subst this
    simp [guessHits, rowHits]
  | cons gh gs ih =>
    cases l with
    | nil => simp at h
    | cons p rest =>
      obtain ⟨pf, ps⟩ := p
      simp only [List.map_cons, List.cons.injEq] at h
      obtain ⟨hpf, hrest⟩ := h
      cases out with
      | nil => simp [guessHits, rowHits]
      | cons o os =>
        have := ih rest os hrest
        by_cases hc : gh = c <;>
          simpa [guessHits, rowHits, List.countP_cons, hpf, hc] using this

/-! ### Claim C1 -/

/-- C1: for every guess and target that are uppercase alphabetic words of
equal length, buildFeedback returns a sequence of the target's length,
marks position i correct exactly when the guess and target letters agree
there, and for every letter value the number of guess positions carrying
that letter marked present or correct never exceeds its occurrence count in
the target. -/
theorem C1_buildFeedback_spec (g t : List Char)
    (hg : isUpperWord g = true) (ht : isUpperWord t = true)
    (hlen : g.length = t.length) :
    (buildFeedback g t).length = t.length ∧
    (∀ i, i < t.length →
      ((buildFeedback g t)[i]? = some LetterState.correct ↔ g[i]? = t[i]?)) ∧
    (∀ c : Char, guessHits c g (buildFeedback g t) ≤ t.count c) := by
  refine ⟨buildFeedback_length g t, ?_, ?_⟩
  · intro i hi
    have hrow := firstPassRow_getElem g t i hi
    have hiff := secondPass_correct_iff (firstPassRow g t)
      (firstPassRemaining g t) i (g[i]?)
      (if g[i]? = t[i]? then LetterState.correct else LetterState.absent) hrow
    simp only [buildFeedback]
    rw [hiff]
    by_cases h : g[i]? = t[i]? <;> simp [h]
  · intro c
    have h1 := secondPass_hits_le (firstPassRow g t) (firstPassRemaining g t) c
    have h2 := firstPass_count g t c
    have h3 := zipHits_eq c g (firstPassRow g t)
      (secondPass (firstPassRow g t) (firstPassRemaining g t))
      (firstPassRow_map_fst g t hlen)
    simp only [buildFeedback]
    rw [h3]
    omega

/-- Witness for C1 at the spec's example, guess PLANED against target
PLANET. -/
theorem C1_buildFeedback_spec_witness :
    (buildFeedback ("PLANED".toList) ("PLANET".toList)).length =
      ("PLANET".toList).length ∧
    (∀ i, i < ("PLANET".toList).length →
      ((buildFeedback ("PLANED".toList) ("PLANET".toList))[i]? =
          some LetterState.correct ↔
        ("PLANED".toList)[i]? = ("PLANET".toList)[i]?)) ∧
    (∀ c : Char, guessHits c ("PLANED".toList)
      (buildFeedback ("PLANED".toList) ("PLANET".toList)) ≤
        ("PLANET".toList).count c) :=
  C1_buildFeedback_spec ("PLANED".toList) ("PLANET".toList)
    (by decide) (by decide) (by decide)

/-! ### Claim C10 -/

/-- C10: buildFeedback is total on arbitrary string inputs: the result
always has the target's length, and every position at or beyond the guess's
length is marked absent. -/
theorem C10_buildFeedback_total (g t : List Char) :
    (buildFeedback g t).length = t.length ∧
    (∀ i, g.length ≤ i → i < t.length →
      (buildFeedback g t)[i]? = some LetterState.absent) := by
  refine ⟨buildFeedback_length g t, ?_⟩
  intro i hgi hit
  have hg : g[i]? = none := List.getElem?_eq_none hgi
  have hrow := firstPassRow_getElem g t i hit
  rw [hg] at hrow
  rw [List.getElem?_eq_getElem hit] at hrow
  simp only [reduceCtorEq, if_false] at hrow
  exact secondPass_none_absent (firstPassRow g t) (firstPassRemaining g t) i hrow

/-- Witness for C10: a 3-letter guess against a 5-letter target, checked at
position 4. -/
theorem C10_buildFeedback_total_witness :
    (buildFeedback ("ABC".toList) ("ABCDE".toList)).length = 5 ∧
    (buildFeedback ("ABC".toList) ("ABCDE".toList))[4]? =
      some LetterState.absent :=
  ⟨((C10_buildFeedback_total ("ABC".toList) ("ABCDE".toList)).1).trans (by decide),
   (C10_buildFeedback_total ("ABC".toList) ("ABCDE".toList)).2 4
     (by decide) (by decide)⟩

/-! ### Lemmas on the word normalizer -/

lemma dropWhile_eq_self_of_all (p : Char → Bool) (l : List Char)
    (h : ∀ c ∈ l, p c = false) : l.dropWhile p = l := by
  cases l with
  | nil => rfl
  | cons a as => simp [List.dropWhile_cons, h a (by simp)]

lemma isJsSpace_of_upper (c : Char) (h : isUpperChar c = true) :
    isJsSpace c = false := by
  simp only [isUpperChar, Bool.and_eq_true, decide_eq_true_eq] at h
  simp only [isJsSpace, Bool.or_eq_false_iff, decide_eq_false_iff_not]
  omega

lemma jsToUpper_of_upper (c : Char) (h : isUpperChar c = true) :
    jsToUpper c = c := by
  simp only [isUpperChar, Bool.and_eq_true, decide_eq_true_eq] at h
  rw [jsToUpper, if_neg]
  omega

lemma trimChars_of_upper (w : List Char) (h : w.all isUpperChar = true) :
    trimChars w = w := by
  have h' : ∀ c ∈ w, isJsSpace c = false := fun c hc =>
    isJsSpace_of_upper c (by
      rw [List.all_eq_true] at h
      exact h c hc)
  rw [trimChars, dropWhile_eq_self_of_all _ _ h',
    dropWhile_eq_self_of_all _ _ (fun c hc => h' c (by simpa using hc)),
    List.reverse_reverse]

lemma map_jsToUpper_of_upper (w : List Char) (h : w.all isUpperChar = true) :
    w.map jsToUpper = w := by
  induction w with
  | nil => rfl
  | cons a as ih =>
    simp only [List.all_cons, Bool.and_eq_true] at h
    simp [jsToUpper_of_upper a h.1, ih h.2]

lemma isUpperWord_all (w : List Char) (h : isUpperWord w = true) :
    w.all isUpperChar = true := by
  simp only [isUpperWord, Bool.and_eq_true] at h
  exact h.2

/-- Normalizing an uppercase alphabetic word at its own length is the
identity. -/
lemma normalizeWord_upper (w : List Char) (hw : isUpperWord w = true)
    (len : Nat) (hlen : w.length = len) :
    normalizeWord (JsValue.str w) len = w := by
  have hall := isUpperWord_all w hw
  simp only [normalizeWord, trimChars_of_upper w hall,
    map_jsToUpper_of_upper w hall, hw, if_true]
  simp [hlen]

/-! ### Claim C5 -/

/-- C5 (code bug): on a legacy-only entry whose words all normalize as
required, normalizePuzzle is claimed to produce a definition whose four
targets are the normalized legacy elements; instead the code returns a
definition with an empty target list, because the fallback branch is
guarded by a some-test over the initially empty target array, which is
false on the empty array, and the final validity check passes vacuously for
the same reason. -/
theorem C5_normalizePuzzle_legacy_bug :
    normalizeWord (arrGet (asArray (getField legacyEntry ("words"))) 1) 6 =
      "PLANET".toList ∧
    normalizeWord (arrGet (asArray (getField legacyEntry ("words"))) 2) 5 =
      "PLANE".toList ∧
    normalizeWord (arrGet (asArray (getField legacyEntry ("words"))) 3) 4 =
      "PLAN".toList ∧
    normalizeWord (arrGet (asArray (getField legacyEntry ("words"))) 4) 3 =
      "PAN".toList ∧
    normalizePuzzle legacyEntry =
      some { date := "2024-01-01".toList, startWord := "PLANETS".toList,
             targetWords := [] } := by
  refine ⟨?_, ?_, ?_, ?_, ?_⟩ <;> decide

/-! ### Claim C6 -/

lemma strictEqStr_iff (v : JsValue) (s : List Char) :
    strictEqStr v s = true ↔ v = JsValue.str s := by
  cases v <;> simp [strictEqStr]

/-- C6: restore returns the empty initial state whenever the stored text
fails to parse or the record is absent (the `none` case), whenever the
stored date field differs from the active date, whenever the stored start
word differs from the active puzzle's start word, and whenever the parsed
value has a non-record structure (property access on it yields undefined,
which is never strictly equal to a string).  No failure is propagated:
every case returns a state. -/
theorem C6_loadStoredState_rejects (raw : Option JsValue) (d : List Char)
    (p : Puzzle)
    (h : raw = none ∨ ∃ v, raw = some v ∧
      (getField v ("date") ≠ JsValue.str d ∨
       getField v ("startWord") ≠ JsValue.str p.startWord ∨
       (∀ fields, v ≠ JsValue.obj fields))) :
    loadStoredState raw d p = createEmptyState := by
  rcases h with rfl | ⟨v, rfl, hv⟩
  · rfl
  · have hdate : getField v ("date") ≠ JsValue.str d →
        loadStoredState (some v) d p = createEmptyState := by
      intro hd
      have hfalse : strictEqStr (getField v ("date")) d = false := by
        rw [Bool.eq_false_iff]
        exact fun h1 => hd ((strictEqStr_iff _ _).1 h1)
      have hpc : passChecks v d p = false := by
        simp [passChecks, hfalse]
      simp [loadStoredState, hpc]
    rcases hv with hd | hs | hobj
    · exact hdate hd
    · have hfalse : strictEqStr (getField v ("startWord")) p.startWord = false := by
        rw [Bool.eq_false_iff]
        exact fun h1 => hs ((strictEqStr_iff _ _).1 h1)
      have hpc : passChecks v d p = false := by
        simp [passChecks, hfalse]
      simp [loadStoredState, hpc]
    · refine hdate ?_
      have : getField v ("date") = JsValue.undef := by
        cases v with
        | obj fields => exact absurd rfl (hobj fields)
        | undef => rfl
        | null => rfl
        | bool b => rfl
        | num q => rfl
        | str s => rfl
        | arr xs => rfl
      rw [this]
      intro hcontra
      exact absurd hcontra (by simp)

/-- Witness for C6: a missing or unparseable record restores to the empty
state. -/
theorem C6_loadStoredState_rejects_witness :
    loadStoredState none ("2024-01-01".toList) samplePuzzle =
      createEmptyState :=
  C6_loadStoredState_rejects none ("2024-01-01".toList) samplePuzzle
    (Or.inl rfl)

/-! ### Branch lemmas for submitGuess -/

lemma submitGuess_solved (p : Puzzle) (s : SessionState) (input : List Char)
    (hk : 4 ≤ s.guesses.length) :
    submitGuess (some p) s input = (s, Signal.alreadySolved) := by
  have h1 : TARGET_LENGTHS.length ≤ s.guesses.length := by
    have hT : TARGET_LENGTHS.length = 4 := rfl
    omega
  simp [submitGuess, h1]

lemma submitGuess_locked (p : Puzzle) (s : SessionState) (input : List Char)
    (hk : s.guesses.length < 4) (hlock : s.lockedOut = true) :
    submitGuess (some p) s input =
      (s, Signal.lockedOutScore (finalScoreLength s.guesses)) := by
  have hT : TARGET_LENGTHS.length = 4 := rfl
  have h1 : ¬(TARGET_LENGTHS.length ≤ s.guesses.length) := by omega
  simp [submitGuess, h1, hlock]

lemma submitGuess_wrongLength (p : Puzzle) (s : SessionState)
    (input : List Char) (hk : s.guesses.length < 4)
    (hlock : s.lockedOut = false)
    (hlen : ((trimChars input).map jsToUpper).length ≠
      TARGET_LENGTHS.getD s.guesses.length 0) :
    submitGuess (some p) s input =
      (s, Signal.wrongLength (TARGET_LENGTHS.getD s.guesses.length 0)) := by
  have hT : TARGET_LENGTHS.length = 4 := rfl
  have h1 : ¬(TARGET_LENGTHS.length ≤ s.guesses.length) := by omega
  simp only [submitGuess]
  rw [if_neg h1, if_neg (by simp [hlock]), if_pos hlen]

lemma submitGuess_correctRaw (p : Puzzle) (s : SessionState)
    (input : List Char) (hk : s.guesses.length < 4)
    (hlock : s.lockedOut = false)
    (hlen : ((trimChars input).map jsToUpper).length =
      TARGET_LENGTHS.getD s.guesses.length 0)
    (heq : (trimChars input).map jsToUpper =
      p.targetWords.getD s.guesses.length []) :
    submitGuess (some p) s input =
      ({ s with guesses := s.guesses ++ [(trimChars input).map jsToUpper] },
       Signal.accepted) := by
  have hT : TARGET_LENGTHS.length = 4 := rfl
  have h1 : ¬(TARGET_LENGTHS.length ≤ s.guesses.length) := by omega
  simp only [submitGuess]
  rw [if_neg h1, if_neg (by simp [hlock]), if_neg (by simp [hlen]),
    if_pos heq]

lemma submitGuess_correct_step (p : Puzzle) (s : SessionState) (w : List Char)
    (hk : s.guesses.length < 4) (hlock : s.lockedOut = false)
    (hupper : w.all isUpperChar = true)
    (hw : p.targetWords.getD s.guesses.length [] = w)
    (hlen : w.length = TARGET_LENGTHS.getD s.guesses.length 0) :
    submitGuess (some p) s w =
      ({ s with guesses := s.guesses ++ [w] }, Signal.accepted) := by
  have hT : TARGET_LENGTHS.length = 4 := rfl
  have h1 : ¬(TARGET_LENGTHS.length ≤ s.guesses.length) := by omega
  have hguess : (trimChars w).map jsToUpper = w := by
    rw [trimChars_of_upper w hupper, map_jsToUpper_of_upper w hupper]
  simp only [submitGuess]
  rw [if_neg h1, if_neg (by simp [hlock]), hguess,
    if_neg (by simp [hlen]), if_pos hw.symm]

lemma submitGuess_wrong (p : Puzzle) (s : SessionState) (input : List Char)
    (hk : s.guesses.length < 4) (hlock : s.lockedOut = false)
    (hlen : ((trimChars input).map jsToUpper).length =
      TARGET_LENGTHS.getD s.guesses.length 0)
    (hwrong : (trimChars input).map jsToUpper ≠
      p.targetWords.getD s.guesses.length []) :
    submitGuess (some p) s input =
      (let guess := (trimChars input).map jsToUpper
       let nextTotal := min MAX_RETRIES (s.totalAttempts + 1)
       let s2 : SessionState :=
         { s with
           totalAttempts := nextTotal,
           attemptsByStep := s.attemptsByStep.set s.guesses.length
             ((s.attemptsByStep.getD s.guesses.length []) ++
               [{ guess := guess,
                  feedback := buildFeedback guess
                    (p.targetWords.getD s.guesses.length []) }]) }
       if MAX_RETRIES ≤ nextTotal then
         ({ s2 with lockedOut := true },
          Signal.lockedOutScore (finalScoreLength s.guesses))
       else (s2, Signal.attemptsLeft (MAX_RETRIES - nextTotal))) := by
  have hT : TARGET_LENGTHS.length = 4 := rfl
  have h1 : ¬(TARGET_LENGTHS.length ≤ s.guesses.length) := by omega
  simp only [submitGuess]
  rw [if_neg h1, if_neg (by simp [hlock]), if_neg (by simp [hlen]),
    if_neg hwrong]

/-! ### Claim C7 -/

/-- C7: from the empty state, submitting the four stage targets in order
advances the stage after each submission and ends fully solved, with the
four words accumulated in order, no attempts recorded, a zero retry
counter, no lockout, and every further submission rejected as already
solved. -/
theorem C7_solve_in_order (p : Puzzle) (t6 t5 t4 t3 : List Char)
    (hp : p.targetWords = [t6, t5, t4, t3])
    (h6 : isUpperWord t6 = true) (h5 : isUpperWord t5 = true)
    (h4 : isUpperWord t4 = true) (h3 : isUpperWord t3 = true)
    (l6 : t6.length = 6) (l5 : t5.length = 5) (l4 : t4.length = 4)
    (l3 : t3.length = 3) :
    submitGuess (some p) createEmptyState t6 =
      ({ createEmptyState with guesses := [t6] }, Signal.accepted) ∧
    submitGuess (some p) { createEmptyState with guesses := [t6] } t5 =
      ({ createEmptyState with guesses := [t6, t5] }, Signal.accepted) ∧
    submitGuess (some p) { createEmptyState with guesses := [t6, t5] } t4 =
      ({ createEmptyState with guesses := [t6, t5, t4] }, Signal.accepted) ∧
    submitGuess (some p) { createEmptyState with guesses := [t6, t5, t4] } t3 =
      ({ createEmptyState with guesses := [t6, t5, t4, t3] },
        Signal.accepted) ∧
    ({ createEmptyState with guesses := [t6, t5, t4, t3] } :
      SessionState).attemptsByStep = createEmptyAttemptsByStep ∧
    ({ createEmptyState with guesses := [t6, t5, t4, t3] } :
      SessionState).totalAttempts = 0 ∧
    ({ createEmptyState with guesses := [t6, t5, t4, t3] } :
      SessionState).lockedOut = false ∧
    (∀ input, submitGuess (some p)
        { createEmptyState with guesses := [t6, t5, t4, t3] } input =
      ({ createEmptyState with guesses := [t6, t5, t4, t3] },
        Signal.alreadySolved)) := by
  refine ⟨?_, ?_, ?_, ?_, rfl, rfl, rfl, ?_⟩
  · exact submitGuess_correct_step p createEmptyState t6 (by decide) rfl
      (isUpperWord_all t6 h6) (by simp [createEmptyState, hp]) (by simp [createEmptyState, l6]; decide)
  · exact submitGuess_correct_step p _ t5 (by simp) rfl
      (isUpperWord_all t5 h5) (by simp [hp]) (by simp [l5]; decide)
  · exact submitGuess_correct_step p _ t4 (by simp) rfl
      (isUpperWord_all t4 h4) (by simp [hp]) (by simp [l4]; decide)
  · exact submitGuess_correct_step p _ t3 (by simp) rfl
      (isUpperWord_all t3 h3) (by simp [hp]) (by simp [l3]; decide)
  · intro input
    exact submitGuess_solved p _ input (by simp)

/-- Witness for C7 on the sample puzzle. -/
theorem C7_solve_in_order_witness :
    submitGuess (some samplePuzzle) createEmptyState ("PLANET".toList) =
      ({ createEmptyState with guesses := ["PLANET".toList] },
        Signal.accepted) ∧
    submitGuess (some samplePuzzle)
        { createEmptyState with guesses := ["PLANET".toList] }
        ("PLANE".toList) =
      ({ createEmptyState with
          guesses := ["PLANET".toList, "PLANE".toList] }, Signal.accepted) ∧
    submitGuess (some samplePuzzle)
        { createEmptyState with
          guesses := ["PLANET".toList, "PLANE".toList] } ("PLAN".toList) =
      ({ createEmptyState with
          guesses := ["PLANET".toList, "PLANE".toList, "PLAN".toList] },
        Signal.accepted) ∧
    submitGuess (some samplePuzzle)
        { createEmptyState with
          guesses := ["PLANET".toList, "PLANE".toList, "PLAN".toList] }
        ("PAN".toList) =
      ({ createEmptyState with
          guesses := ["PLANET".toList, "PLANE".toList, "PLAN".toList,
            "PAN".toList] }, Signal.accepted) ∧
    ({ createEmptyState with
        guesses := ["PLANET".toList, "PLANE".toList, "PLAN".toList,
          "PAN".toList] } : SessionState).attemptsByStep =
      createEmptyAttemptsByStep ∧
    ({ createEmptyState with
        guesses := ["PLANET".toList, "PLANE".toList, "PLAN".toList,
          "PAN".toList] } : SessionState).totalAttempts = 0 ∧
    ({ createEmptyState with
        guesses := ["PLANET".toList, "PLANE".toList, "PLAN".toList,
          "PAN".toList] } : SessionState).lockedOut = false ∧
    (∀ input, submitGuess (some samplePuzzle)
        { createEmptyState with
          guesses := ["PLANET".toList, "PLANE".toList, "PLAN".toList,
            "PAN".toList] } input =
      ({ createEmptyState with
          guesses := ["PLANET".toList, "PLANE".toList, "PLAN".toList,
            "PAN".toList] }, Signal.alreadySolved)) :=
  C7_solve_in_order samplePuzzle ("PLANET".toList) ("PLANE".toList)
    ("PLAN".toList) ("PAN".toList) rfl (by decide) (by decide) (by decide)
    (by decide) (by decide) (by decide) (by decide) (by decide)

/-! ### Claim C2 -/

/-- C2: from any non-solved, non-locked state with one retry remaining, a
wrong-guess submission of the right length sets lockedOut, raises the
counter to MAX_RETRIES, leaves the solved guesses unchanged, and emits the
locked-out signal carrying the final score; every subsequent submission is
rejected with the same locked-out signal and changes no state; and the
score is the length of the last solved word, 7 when none is solved. -/
theorem C2_third_wrong_guess_locks (p : Puzzle) (s : SessionState)
    (input : List Char)
    (hk : s.guesses.length < 4) (hlock : s.lockedOut = false)
    (htot : s.totalAttempts = MAX_RETRIES - 1)
    (hlen : ((trimChars input).map jsToUpper).length =
      TARGET_LENGTHS.getD s.guesses.length 0)
    (hwrong : (trimChars input).map jsToUpper ≠
      p.targetWords.getD s.guesses.length []) :
    (submitGuess (some p) s input).1.lockedOut = true ∧
    (submitGuess (some p) s input).1.totalAttempts = MAX_RETRIES ∧
    (submitGuess (some p) s input).1.guesses = s.guesses ∧
    (submitGuess (some p) s input).2 =
      Signal.lockedOutScore (finalScoreLength s.guesses) ∧
    (∀ input2, submitGuess (some p) (submitGuess (some p) s input).1 input2 =
      ((submitGuess (some p) s input).1,
        Signal.lockedOutScore (finalScoreLength s.guesses))) ∧
    finalScoreLength s.guesses =
      (match s.guesses.getLast? with
       | some w => w.length
       | none => 7) := by
  have hstep := submitGuess_wrong p s input hk hlock hlen hwrong
  have hnext : min MAX_RETRIES (s.totalAttempts + 1) = MAX_RETRIES := by
    rw [htot]; decide
  have hstep2 : submitGuess (some p) s input =
      ({ s with
          totalAttempts := MAX_RETRIES,
          attemptsByStep := s.attemptsByStep.set s.guesses.length
            ((s.attemptsByStep.getD s.guesses.length []) ++
              [{ guess := (trimChars input).map jsToUpper,
                 feedback := buildFeedback ((trimChars input).map jsToUpper)
                   (p.targetWords.getD s.guesses.length []) }]),
          lockedOut := true },
       Signal.lockedOutScore (finalScoreLength s.guesses)) := by
    rw [hstep]
    simp only [hnext]
    rw [if_pos (le_refl MAX_RETRIES)]
  rw [hstep2]
  refine ⟨rfl, rfl, rfl, rfl, ?_, rfl⟩
  intro input2
  exact submitGuess_locked p _ input2 hk rfl

/-- Witness for C2: a third wrong guess on the sample puzzle from a state
with two retries used locks the session and reports final score 7. -/
theorem C2_third_wrong_guess_locks_witness :
    (submitGuess (some samplePuzzle) twoUsedState
        ("HELLOS".toList)).1.lockedOut = true ∧
    (submitGuess (some samplePuzzle) twoUsedState
        ("HELLOS".toList)).1.totalAttempts = MAX_RETRIES ∧
    (submitGuess (some samplePuzzle) twoUsedState
        ("HELLOS".toList)).1.guesses = twoUsedState.guesses ∧
    (submitGuess (some samplePuzzle) twoUsedState ("HELLOS".toList)).2 =
      Signal.lockedOutScore (finalScoreLength twoUsedState.guesses) ∧
    (∀ input2, submitGuess (some samplePuzzle)
        (submitGuess (some samplePuzzle) twoUsedState
          ("HELLOS".toList)).1 input2 =
      ((submitGuess (some samplePuzzle) twoUsedState ("HELLOS".toList)).1,
        Signal.lockedOutScore (finalScoreLength twoUsedState.guesses))) ∧
    finalScoreLength twoUsedState.guesses =
      (match twoUsedState.guesses.getLast? with
       | some w => w.length
       | none => 7) :=
  C2_third_wrong_guess_locks samplePuzzle twoUsedState ("HELLOS".toList)
    (by decide) rfl rfl (by decide) (by decide)

/-! ### Structural lemmas on the restore path -/

lemma reconstructRow_bounds (raws : List JsValue) (target : List Char)
    (len : Nat) (total : Nat) (h : total ≤ MAX_RETRIES) :
    total ≤ (reconstructRow raws target len total).2 ∧
    (reconstructRow raws target len total).2 ≤ MAX_RETRIES := by
  induction raws generalizing total with
  | nil => exact ⟨le_refl _, h⟩
  | cons r rest ih =>
    by_cases hcap : MAX_RETRIES ≤ total
    · simp only [reconstructRow, if_pos hcap]
      exact ⟨le_refl _, h⟩
    · simp only [reconstructRow, if_neg hcap]
      split
      · exact ih total h
      · have hrec := ih (total + 1) (by omega)
        exact ⟨by omega, hrec.2⟩

lemma reconstructSteps_bounds (rows : List JsValue)
    (pairs : List (Nat × List Char)) (total : Nat) (h : total ≤ MAX_RETRIES) :
    total ≤ (reconstructSteps rows pairs total).2 ∧
    (reconstructSteps rows pairs total).2 ≤ MAX_RETRIES := by
  induction pairs generalizing rows total with
  | nil => exact ⟨le_refl _, h⟩
  | cons pr rest ih =>
    obtain ⟨len, target⟩ := pr
    simp only [reconstructSteps]
    split
    · have hrow := reconstructRow_bounds (asArray (rows.headD JsValue.undef))
        target len total h
      have hrest := ih rows.tail _ hrow.2
      exact ⟨le_trans hrow.1 hrest.1, hrest.2⟩
    · exact ih rows.tail total h

lemma reconstructAttempts_bounds (parsed : JsValue) (puzzle : Puzzle) :
    (reconstructAttempts parsed puzzle).2 ≤ MAX_RETRIES := by
  unfold reconstructAttempts
  split
  · exact (reconstructSteps_bounds _ _ 0 (by decide)).2
  · split
    · split
      · exact (reconstructRow_bounds _ _ _ 0 (by decide)).2
      · decide
    · decide

lemma reconciledTotal_bounds (parsed : JsValue) (puzzle : Puzzle) :
    0 ≤ reconciledTotal parsed puzzle ∧
    reconciledTotal parsed puzzle ≤ (MAX_RETRIES : Int) := by
  have hrec : ((reconstructAttempts parsed puzzle).2 : Int) ≤ (MAX_RETRIES : Int) := by
    exact_mod_cast reconstructAttempts_bounds parsed puzzle
  have hrec0 : (0 : Int) ≤ ((reconstructAttempts parsed puzzle).2 : Int) :=
    Int.ofNat_nonneg _
  unfold reconciledTotal
  split
  · split
    · constructor
      · exact le_min (by decide) (le_trans hrec0 (le_max_left _ _))
      · exact min_le_left _ _
    · exact ⟨hrec0, hrec⟩
  · exact ⟨hrec0, hrec⟩

/-- Unfolding of loadStoredState on a record passing the early checks. -/
lemma loadStoredState_eq (v : JsValue) (d : List Char) (p : Puzzle)
    (hpass : passChecks v d p = true) :
    loadStoredState (some v) d p =
      { guesses := collectValidGuesses (asArray (getField v ("guesses")))
          (TARGET_LENGTHS.zip p.targetWords),
        attemptsByStep := (reconstructAttempts v p).1,
        totalAttempts :=
          (min (MAX_RETRIES : Int) (reconciledTotal v p)).toNat,
        lockedOut :=
          if TARGET_LENGTHS.length ≤
              (collectValidGuesses (asArray (getField v ("guesses")))
                (TARGET_LENGTHS.zip p.targetWords)).length then false
          else truthy (getField v ("lockedOut")) ||
            truthy (getField v ("failed")) ||
            decide ((MAX_RETRIES : Int) ≤ reconciledTotal v p) } := by
  simp only [loadStoredState]
  rw [if_neg (by simp [hpass])]

/-- On a record passing the checks, the restored counter is exactly the
reconciled total (the final clamp of line 216 is a no-op). -/
lemma loadStoredState_total_int (v : JsValue) (d : List Char) (p : Puzzle)
    (hpass : passChecks v d p = true) :
    ((loadStoredState (some v) d p).totalAttempts : Int) =
      reconciledTotal v p := by
  rw [loadStoredState_eq v d p hpass]
  have hb := reconciledTotal_bounds v p
  simp only [MAX_RETRIES] at hb ⊢
  omega

/-! ### Claim C4 -/

/-- C4 counterexample: restoring a record that passes all checks, with zero
attempts but a stored lockedOut flag, yields lockedOut true while
totalAttemptsUsed is 0, refuting the claimed equivalence of lockedOut with
totalAttemptsUsed = MAX_RETRIES and the puzzle not fully solved. -/
theorem C4_lockedOut_iff_counterexample :
    (loadStoredState (some lockedFlagRecord) ("2024-01-01".toList)
        samplePuzzle).lockedOut = true ∧
    (loadStoredState (some lockedFlagRecord) ("2024-01-01".toList)
        samplePuzzle).totalAttempts = 0 ∧
    ¬(((loadStoredState (some lockedFlagRecord) ("2024-01-01".toList)
          samplePuzzle).lockedOut = true) ↔
      ((loadStoredState (some lockedFlagRecord) ("2024-01-01".toList)
          samplePuzzle).totalAttempts = MAX_RETRIES ∧
       (loadStoredState (some lockedFlagRecord) ("2024-01-01".toList)
          samplePuzzle).guesses.length < 4)) := by
  refine ⟨?_, ?_, ?_⟩ <;> decide

/-- C4 (amended): restore computes lockedOut true exactly when fewer than
four stages were validated and either a stored lockedOut or failed flag is
truthy or the reconciled counter reached MAX_RETRIES; any restored state
with all four stages solved has lockedOut false regardless of stored flags;
and guess transitions preserve the invariant that lockedOut holds iff
totalAttemptsUsed = MAX_RETRIES with fewer than four stages solved. -/
theorem C4_lockedOut_amended :
    (∀ (v : JsValue) (d : List Char) (p : Puzzle),
      passChecks v d p = true →
      ((loadStoredState (some v) d p).lockedOut = true ↔
        ((loadStoredState (some v) d p).guesses.length < 4 ∧
          (truthy (getField v ("lockedOut")) = true ∨
           truthy (getField v ("failed")) = true ∨
           (loadStoredState (some v) d p).totalAttempts = MAX_RETRIES)))) ∧
    (∀ (raw : Option JsValue) (d : List Char) (p : Puzzle),
      4 ≤ (loadStoredState raw d p).guesses.length →
      (loadStoredState raw d p).lockedOut = false) ∧
    (∀ (p : Puzzle) (s : SessionState) (input : List Char),
      (s.lockedOut = true ↔
        (s.totalAttempts = MAX_RETRIES ∧ s.guesses.length < 4)) →
      ((submitGuess (some p) s input).1.lockedOut = true ↔
        ((submitGuess (some p) s input).1.totalAttempts = MAX_RETRIES ∧
         (submitGuess (some p) s input).1.guesses.length < 4))) := by
  refine ⟨?_, ?_, ?_⟩
  · intro v d p hpass
    have hr0 := (reconciledTotal_bounds v p).1
    have hr3 := (reconciledTotal_bounds v p).2
    have hcast : ((reconciledTotal v p).toNat : Int) = reconciledTotal v p :=
      Int.toNat_of_nonneg hr0
    have hiff : ((min (MAX_RETRIES : Int) (reconciledTotal v p)).toNat =
        MAX_RETRIES) ↔ ((MAX_RETRIES : Int) ≤ reconciledTotal v p) := by
      rw [min_eq_right hr3]
      constructor
      · intro h
        have he : reconciledTotal v p = (MAX_RETRIES : Int) := by
          rw [← hcast, h]
        rw [he]
      · intro h
        have he : reconciledTotal v p = (MAX_RETRIES : Int) :=
          le_antisymm hr3 h
        rw [he, Int.toNat_natCast]
    rw [loadStoredState_eq v d p hpass]
    have hT : TARGET_LENGTHS.length = 4 := rfl
    by_cases hsolved : TARGET_LENGTHS.length ≤
        (collectValidGuesses (asArray (getField v ("guesses")))
          (TARGET_LENGTHS.zip p.targetWords)).length
    · simp only [if_pos hsolved]
      constructor
      · intro h; exact absurd h (by decide)
      · rintro ⟨h1, _⟩; omega
    · simp only [if_neg hsolved]
      have hlen4 : (collectValidGuesses (asArray (getField v ("guesses")))
          (TARGET_LENGTHS.zip p.targetWords)).length < 4 := by omega
      simp only [Bool.or_eq_true, decide_eq_true_eq]
      constructor
      · rintro ((h | h) | h)
        · exact ⟨hlen4, Or.inl h⟩
        · exact ⟨hlen4, Or.inr (Or.inl h)⟩
        · exact ⟨hlen4, Or.inr (Or.inr (hiff.mpr h))⟩
      · rintro ⟨_, h | h | h⟩
        · exact Or.inl (Or.inl h)
        · exact Or.inl (Or.inr h)
        · exact Or.inr (hiff.mp h)
  · intro raw d p hsolved
    cases raw with
    | none => rfl
    | some v =>
      by_cases hpass : passChecks v d p = true
      · rw [loadStoredState_eq v d p hpass] at hsolved ⊢
        have hsG : 4 ≤ (collectValidGuesses (asArray (getField v ("guesses")))
            (TARGET_LENGTHS.zip p.targetWords)).length := hsolved
        show (if TARGET_LENGTHS.length ≤
            (collectValidGuesses (asArray (getField v ("guesses")))
              (TARGET_LENGTHS.zip p.targetWords)).length then false
          else truthy (getField v ("lockedOut")) ||
            truthy (getField v ("failed")) ||
            decide ((MAX_RETRIES : Int) ≤ reconciledTotal v p)) = false
        rw [if_pos (by rw [show TARGET_LENGTHS.length = 4 from rfl]; exact hsG)]
      · have hf : passChecks v d p = false := Bool.eq_false_iff.mpr hpass
        simp [loadStoredState, hf, createEmptyState]
  · intro p s input hInv
    by_cases hk : 4 ≤ s.guesses.length
    · rw [submitGuess_solved p s input hk]; exact hInv
    · push_neg at hk
      by_cases hlock : s.lockedOut = true
      · rw [submitGuess_locked p s input hk hlock]; exact hInv
      · have hlock' : s.lockedOut = false := Bool.eq_false_iff.mpr hlock
        have hni : ¬(s.totalAttempts = MAX_RETRIES ∧ s.guesses.length < 4) := by
          intro hcontra
          have := hInv.mpr hcontra
          rw [hlock'] at this
          exact absurd this (by decide)
        by_cases hlen : ((trimChars input).map jsToUpper).length =
            TARGET_LENGTHS.getD s.guesses.length 0
        · by_cases heq : (trimChars input).map jsToUpper =
              p.targetWords.getD s.guesses.length []
          · rw [submitGuess_correctRaw p s input hk hlock' hlen heq]
            show s.lockedOut = true ↔
              (s.totalAttempts = MAX_RETRIES ∧
                (s.guesses ++ [(trimChars input).map jsToUpper]).length < 4)
            rw [hlock']
            constructor
            · intro h; exact absurd h (by decide)
            · rintro ⟨h3, _⟩
              exact absurd ⟨h3, hk⟩ hni
          · rw [submitGuess_wrong p s input hk hlock' hlen heq]
            by_cases h2 : 2 ≤ s.totalAttempts
            · have hmin : min MAX_RETRIES (s.totalAttempts + 1) = MAX_RETRIES := by
                simp only [MAX_RETRIES]; omega
              simp only [hmin]
              rw [if_pos (le_refl MAX_RETRIES)]
              constructor
              · intro _; exact ⟨rfl, hk⟩
              · intro _; rfl
            · have hmin : min MAX_RETRIES (s.totalAttempts + 1) =
                  s.totalAttempts + 1 := by
                simp only [MAX_RETRIES]; omega
              simp only [hmin]
              rw [if_neg (by simp only [MAX_RETRIES]; omega)]
              show s.lockedOut = true ↔
                (s.totalAttempts + 1 = MAX_RETRIES ∧ s.guesses.length < 4)
              rw [hlock']
              constructor
              · intro h; exact absurd h (by decide)
              · rintro ⟨h3, _⟩
                simp only [MAX_RETRIES] at h3
                omega
        · rw [submitGuess_wrongLength p s input hk hlock' hlen]
          exact hInv

/-- Witness for the amended C4: the restore characterization instantiated at
the counterexample record, and the transition invariant instantiated at the
empty state. -/
theorem C4_lockedOut_amended_witness :
    passChecks lockedFlagRecord ("2024-01-01".toList) samplePuzzle = true ∧
    ((loadStoredState (some lockedFlagRecord) ("2024-01-01".toList)
        samplePuzzle).lockedOut = true ↔
      ((loadStoredState (some lockedFlagRecord) ("2024-01-01".toList)
          samplePuzzle).guesses.length < 4 ∧
        (truthy (getField lockedFlagRecord ("lockedOut")) = true ∨
         truthy (getField lockedFlagRecord ("failed")) = true ∨
         (loadStoredState (some lockedFlagRecord) ("2024-01-01".toList)
            samplePuzzle).totalAttempts = MAX_RETRIES))) ∧
    ((submitGuess (some samplePuzzle) createEmptyState
        ("HELLOS".toList)).1.lockedOut = true ↔
      ((submitGuess (some samplePuzzle) createEmptyState
          ("HELLOS".toList)).1.totalAttempts = MAX_RETRIES ∧
       (submitGuess (some samplePuzzle) createEmptyState
          ("HELLOS".toList)).1.guesses.length < 4)) :=
  ⟨by decide,
   C4_lockedOut_amended.1 lockedFlagRecord ("2024-01-01".toList) samplePuzzle
     (by decide),
   C4_lockedOut_amended.2.2 samplePuzzle createEmptyState ("HELLOS".toList)
     (by decide)⟩

/-! ### Claim C9 -/

/-- C9 counterexample: the claim promises the reconciliation for any
present and numeric totalAttempts field, but the code requires
Number.isInteger; with a stored 5/2 the restored counter is 0, while
min(MAX_RETRIES, max(reconstructed, stored)) is 5/2. -/
theorem C9_reconcile_counterexample :
    passChecks halfRecord ("2024-01-01".toList) samplePuzzle = true ∧
    getField halfRecord ("totalAttempts") = JsValue.num halfQ ∧
    (loadStoredState (some halfRecord) ("2024-01-01".toList)
        samplePuzzle).totalAttempts = 0 ∧
    ¬(((loadStoredState (some halfRecord) ("2024-01-01".toList)
          samplePuzzle).totalAttempts : Rat) =
      min (MAX_RETRIES : Rat)
        (max ((reconstructAttempts halfRecord samplePuzzle).2 : Rat)
          halfQ)) := by
  have h1 : (loadStoredState (some halfRecord) ("2024-01-01".toList)
      samplePuzzle).totalAttempts = 0 := by decide
  have h2 : (reconstructAttempts halfRecord samplePuzzle).2 = 0 := by decide
  have hq : halfQ = (5 : Rat) / 2 := by
    unfold halfQ
    rw [Rat.mk'_eq_divInt, Rat.divInt_eq_div]
    norm_num
  refine ⟨by decide, rfl, h1, ?_⟩
  rw [h1, h2, hq]
  rw [max_eq_right (by norm_num), min_eq_right (by norm_num [MAX_RETRIES])]
  norm_num

/-- C9 (amended): for every stored record passing the date and start-word
checks whose totalAttempts field is numeric with an integer value (the
Number.isInteger test), the restored counter equals min(MAX_RETRIES,
max(reconstructed count, stored value)). -/
theorem C9_reconcile_integer (v : JsValue) (d : List Char) (p : Puzzle)
    (q : Rat) (hpass : passChecks v d p = true)
    (hfield : getField v ("totalAttempts") = JsValue.num q)
    (hint : q.den = 1) :
    ((loadStoredState (some v) d p).totalAttempts : Int) =
      min (MAX_RETRIES : Int)
        (max ((reconstructAttempts v p).2 : Int) q.num) := by
  rw [loadStoredState_total_int v d p hpass]
  unfold reconciledTotal
  rw [hfield]
  simp [hint]

/-- Witness for the amended C9 at a stored integer total of 2. -/
theorem C9_reconcile_integer_witness :
    ((loadStoredState (some intRecord) ("2024-01-01".toList)
        samplePuzzle).totalAttempts : Int) =
      min (MAX_RETRIES : Int)
        (max ((reconstructAttempts intRecord samplePuzzle).2 : Int)
          ((2 : Rat)).num) :=
  C9_reconcile_integer intRecord ("2024-01-01".toList) samplePuzzle
    (2 : Rat) (by decide) rfl (by decide)

/-! ### Claim C8 -/

lemma noTargetAttempts_empty (p : Puzzle) :
    NoTargetAttempts p createEmptyState := by
  intro i a h
  rcases i with _ | _ | _ | _ | i <;>
    simp [createEmptyState, createEmptyAttemptsByStep, TARGET_LENGTHS] at h

lemma reconstructRow_guess_ne (raws : List JsValue) (target : List Char)
    (len : Nat) (total : Nat) :
    ∀ a ∈ (reconstructRow raws target len total).1, a.guess ≠ target := by
  induction raws generalizing total with
  | nil => intro a h; simp [reconstructRow] at h
  | cons r rest ih =>
    intro a h
    by_cases hcap : MAX_RETRIES ≤ total
    · simp only [reconstructRow, if_pos hcap] at h
      simp at h
    · simp only [reconstructRow, if_neg hcap] at h
      revert h
      split
      · intro h; exact ih total a h
      · intro h
        rename_i hcond
        simp only [List.mem_cons] at h
        rcases h with rfl | h
        · simp only [Bool.or_eq_true, decide_eq_true_eq, not_or] at hcond
          exact hcond.2
        · exact ih (total + 1) a h

lemma reconstructSteps_mem (rows : List JsValue)
    (pairs : List (Nat × List Char)) (total : Nat) (i : Nat) (a : Attempt)
    (h : a ∈ (reconstructSteps rows pairs total).1.getD i []) :
    ∃ pr : Nat × List Char, pairs[i]? = some pr ∧ a.guess ≠ pr.2 := by
  induction pairs generalizing rows total i with
  | nil => simp [reconstructSteps, List.getD_eq_getElem?_getD] at h
  | cons pr rest ih =>
    obtain ⟨len, target⟩ := pr
    simp only [reconstructSteps] at h
    revert h
    split
    · cases i with
      | zero =>
        intro h
        simp only [List.getD_eq_getElem?_getD, List.getElem?_cons_zero,
          Option.getD_some] at h
        exact ⟨(len, target), by simp,
          reconstructRow_guess_ne _ target len total a h⟩
      | succ n =>
        intro h
        simp only [List.getD_eq_getElem?_getD, List.getElem?_cons_succ] at h
        obtain ⟨pr2, hpr2, hne⟩ := ih rows.tail _ n
          (by simpa [List.getD_eq_getElem?_getD] using h)
        exact ⟨pr2, by simpa using hpr2, hne⟩
    · cases i with
      | zero =>
        intro h
        simp [List.getD_eq_getElem?_getD] at h
      | succ n =>
        intro h
        simp only [List.getD_eq_getElem?_getD, List.getElem?_cons_succ] at h
        obtain ⟨pr2, hpr2, hne⟩ := ih rows.tail _ n
          (by simpa [List.getD_eq_getElem?_getD] using h)
        exact ⟨pr2, by simpa using hpr2, hne⟩

lemma mem_set_empty_rows (step : Nat) (row : List Attempt) (i : Nat)
    (a : Attempt)
    (h : a ∈ (createEmptyAttemptsByStep.set step row).getD i []) :
    i = step ∧ a ∈ row := by
  rw [List.getD_eq_getElem?_getD, List.getElem?_set] at h
  by_cases his : step = i
  · subst his
    by_cases hlt : step < createEmptyAttemptsByStep.length
    · simp only [if_pos rfl, if_pos hlt, Option.getD_some] at h
      exact ⟨rfl, h⟩
    · simp only [if_pos rfl, if_neg hlt, Option.getD_none] at h
      simp at h
  · simp only [if_neg his] at h
    exfalso
    have hrows : (createEmptyAttemptsByStep[i]?).getD ([] : List Attempt) = [] := by
      rcases i with _ | _ | _ | _ | i <;> rfl
    rw [hrows] at h
    simp at h

lemma noTargetAttempts_load (raw : Option JsValue) (d : List Char)
    (p : Puzzle) : NoTargetAttempts p (loadStoredState raw d p) := by
  cases raw with
  | none => exact noTargetAttempts_empty p
  | some v =>
    by_cases hpass : passChecks v d p = true
    · rw [loadStoredState_eq v d p hpass]
      intro i a ha
      show a.guess ≠ p.targetWords.getD i []
      revert ha
      show a ∈ (reconstructAttempts v p).1.getD i [] → _
      unfold reconstructAttempts
      split
      · intro ha
        obtain ⟨pr, hpr, hne⟩ := reconstructSteps_mem _ _ 0 i a ha
        have hz := (List.getElem?_zip_eq_some).1 hpr
        rw [List.getD_eq_getElem?_getD, hz.2]
        exact hne
      · split
        · split
          · intro ha
            obtain ⟨rfl, hmem⟩ := mem_set_empty_rows _ _ i a ha
            exact reconstructRow_guess_ne _ _ _ 0 a hmem
          · intro ha
            exfalso
            obtain ⟨_, hmem⟩ := mem_set_empty_rows 0 [] i a (by
              simpa [List.set] using ha)
            simp at hmem
        · intro ha
          exfalso
          obtain ⟨_, hmem⟩ := mem_set_empty_rows 0 [] i a (by
            simpa [List.set] using ha)
          simp at hmem
    · have hf : passChecks v d p = false := Bool.eq_false_iff.mpr hpass
      have he : loadStoredState (some v) d p = createEmptyState := by
        simp [loadStoredState, hf]
      rw [he]
      exact noTargetAttempts_empty p

/-- C8: no session state the program produces records an attempt equal to
its stage's target: submitGuess preserves the property (it records an
attempt only when the guess differs from the target), and restore
establishes it from any stored record (stored attempts matching the target
are dropped). -/
theorem C8_attempts_never_target :
    (∀ (p : Puzzle) (s : SessionState) (input : List Char),
      NoTargetAttempts p s →
      NoTargetAttempts p (submitGuess (some p) s input).1) ∧
    (∀ (raw : Option JsValue) (d : List Char) (p : Puzzle),
      NoTargetAttempts p (loadStoredState raw d p)) := by
  constructor
  · intro p s input h
    by_cases hk : 4 ≤ s.guesses.length
    · rw [submitGuess_solved p s input hk]; exact h
    · push_neg at hk
      by_cases hlock : s.lockedOut = true
      · rw [submitGuess_locked p s input hk hlock]; exact h
      · have hlock' : s.lockedOut = false := Bool.eq_false_iff.mpr hlock
        by_cases hlen : ((trimChars input).map jsToUpper).length =
            TARGET_LENGTHS.getD s.guesses.length 0
        · by_cases heq : (trimChars input).map jsToUpper =
              p.targetWords.getD s.guesses.length []
          · rw [submitGuess_correctRaw p s input hk hlock' hlen heq]
            exact h
          · have hset : (submitGuess (some p) s input).1.attemptsByStep =
                s.attemptsByStep.set s.guesses.length
                  ((s.attemptsByStep.getD s.guesses.length []) ++
                    [Attempt.mk ((trimChars input).map jsToUpper)
                      (buildFeedback ((trimChars input).map jsToUpper)
                        (p.targetWords.getD s.guesses.length []))]) := by
              rw [submitGuess_wrong p s input hk hlock' hlen heq]
              by_cases h2 : 2 ≤ s.totalAttempts
              · have hmin : min MAX_RETRIES (s.totalAttempts + 1) =
                    MAX_RETRIES := by
                  simp only [MAX_RETRIES]; omega
                simp only [hmin]
                rw [if_pos (le_refl MAX_RETRIES)]
              · have hmin : min MAX_RETRIES (s.totalAttempts + 1) =
                    s.totalAttempts + 1 := by
                  simp only [MAX_RETRIES]; omega
                simp only [hmin]
                rw [if_neg (by simp only [MAX_RETRIES]; omega)]
            intro i a ha
            rw [hset] at ha
            by_cases his : s.guesses.length = i
            · subst his
              by_cases hlt : s.guesses.length < s.attemptsByStep.length
              · rw [List.getD_eq_getElem?_getD, List.getElem?_set_self hlt,
                  Option.getD_some] at ha
                rcases List.mem_append.1 ha with hmem | hmem
                · exact h _ a hmem
                · have ha2 : a = Attempt.mk ((trimChars input).map jsToUpper)
                      (buildFeedback ((trimChars input).map jsToUpper)
                        (p.targetWords.getD s.guesses.length [])) := by
                    simpa using hmem
                  rw [ha2]
                  exact heq
              · rw [List.set_eq_of_length_le (by omega)] at ha
                exact h _ a ha
            · rw [List.getD_eq_getElem?_getD, List.getElem?_set_ne his] at ha
              exact h i a (by rw [List.getD_eq_getElem?_getD]; exact ha)
        · rw [submitGuess_wrongLength p s input hk hlock' hlen]
          exact h
  · exact noTargetAttempts_load

/-- Witness for C8: the preservation conjunct applied to the empty state and
a wrong guess on the sample puzzle. -/
theorem C8_attempts_never_target_witness :
    NoTargetAttempts samplePuzzle
      (submitGuess (some samplePuzzle) createEmptyState
        ("HELLOS".toList)).1 :=
  C8_attempts_never_target.1 samplePuzzle createEmptyState
    ("HELLOS".toList) (noTargetAttempts_empty samplePuzzle)

/-! ### Claim C3: well-formed states and the save/restore round trip -/

lemma puzzleWF_destruct (p : Puzzle) (hp : puzzleWF p = true) :
    ∃ t0 t1 t2 t3 : List Char,
      p.targetWords = [t0, t1, t2, t3] ∧
      t0.length = 6 ∧ isUpperWord t0 = true ∧
      t1.length = 5 ∧ isUpperWord t1 = true ∧
      t2.length = 4 ∧ isUpperWord t2 = true ∧
      t3.length = 3 ∧ isUpperWord t3 = true := by
  simp only [puzzleWF, Bool.and_eq_true, beq_iff_eq] at hp
  obtain ⟨hlen, hall⟩ := hp
  obtain ⟨t0, t1, t2, t3, htw⟩ : ∃ a b c d, p.targetWords = [a, b, c, d] := by
    rcases hx : p.targetWords with _ | ⟨a, _ | ⟨b, _ | ⟨c, _ | ⟨d, _ | ⟨e, l⟩⟩⟩⟩⟩ <;>
      rw [hx] at hlen <;> simp at hlen
    exact ⟨a, b, c, d, rfl⟩
  rw [htw] at hall
  simp only [TARGET_LENGTHS, List.zip_cons_cons, List.zip_nil_right,
    List.all_cons, List.all_nil, Bool.and_eq_true, beq_iff_eq,
    Bool.and_true] at hall
  exact ⟨t0, t1, t2, t3, htw, hall.1.1, hall.1.2, hall.2.1.1, hall.2.1.2,
    hall.2.2.1.1, hall.2.2.1.2, hall.2.2.2.1, hall.2.2.2.2⟩

lemma TARGET_LENGTHS_pos : ∀ k, k < 4 → 0 < TARGET_LENGTHS.getD k 0 := by
  decide

lemma sum_map_length_set_append (rows : List (List Attempt)) (k : Nat)
    (a : Attempt) (hk : k < rows.length) :
    ((rows.set k ((rows.getD k []) ++ [a])).map List.length).sum =
      (rows.map List.length).sum + 1 := by
  induction rows generalizing k with
  | nil => simp at hk
  | cons r rest ih =>
    cases k with
    | zero =>
      simp only [List.getD_cons_zero, List.set_cons_zero, List.map_cons,
        List.sum_cons, List.length_append, List.length_cons,
        List.length_nil]
      omega
    | succ n =>
      simp only [List.getD_cons_succ, List.set_cons_succ, List.map_cons,
        List.sum_cons]
      rw [ih n (by simpa using hk)]
      omega

lemma stateWF_empty (p : Puzzle) : StateWF p createEmptyState := by
  refine ⟨rfl, by decide, rfl, ?_, rfl, by decide, by decide⟩
  intro i a h
  rcases i with _ | _ | _ | _ | i <;>
    simp [createEmptyState, createEmptyAttemptsByStep, TARGET_LENGTHS] at h

lemma reachable_WF (p : Puzzle) (hp : puzzleWF p = true) (s : SessionState)
    (hr : Reachable p s) : StateWF p s := by
  induction hr with
  | empty => exact stateWF_empty p
  | submit s input hr2 hin ih =>
    obtain ⟨hpre, hle, hrows, hok, hsum, hcap, hlk⟩ := ih
    by_cases hk : 4 ≤ s.guesses.length
    · rw [submitGuess_solved p s input hk]
      exact ⟨hpre, hle, hrows, hok, hsum, hcap, hlk⟩
    · push_neg at hk
      by_cases hlock : s.lockedOut = true
      · rw [submitGuess_locked p s input hk hlock]
        exact ⟨hpre, hle, hrows, hok, hsum, hcap, hlk⟩
      · have hlock' : s.lockedOut = false := Bool.eq_false_iff.mpr hlock
        have htne : s.totalAttempts ≠ MAX_RETRIES := by
          intro hcontra
          have := hlk.mpr ⟨hcontra, hk⟩
          rw [hlock'] at this
          exact absurd this (by decide)
        have hginput : (trimChars input).map jsToUpper = input := by
          rw [trimChars_of_upper input hin, map_jsToUpper_of_upper input hin]
        by_cases hlen : ((trimChars input).map jsToUpper).length =
            TARGET_LENGTHS.getD s.guesses.length 0
        · by_cases heq : (trimChars input).map jsToUpper =
              p.targetWords.getD s.guesses.length []
          · rw [submitGuess_correctRaw p s input hk hlock' hlen heq]
            have hlen4 : p.targetWords.length = 4 := by
              obtain ⟨t0, t1, t2, t3, htw, _⟩ := puzzleWF_destruct p hp
              rw [htw]; rfl
            have hnth : p.targetWords[s.guesses.length]? =
                some (p.targetWords.getD s.guesses.length []) := by
              rw [List.getD_eq_getElem?_getD,
                List.getElem?_eq_getElem (by omega)]
              rfl
            refine ⟨?_, by
              simp only [List.length_append, List.length_cons, List.length_nil]
              omega, hrows, hok, hsum, hcap, ?_⟩
            · have : p.targetWords.take (s.guesses.length + 1) =
                  p.targetWords.take s.guesses.length ++
                    [p.targetWords.getD s.guesses.length []] := by
                rw [List.take_succ, hnth]
                rfl
              simp only [List.length_append, List.length_cons,
                List.length_nil]
              rw [this, ← hpre, heq]
            · show s.lockedOut = true ↔ _
              rw [hlock']
              constructor
              · intro h; exact absurd h (by decide)
              · rintro ⟨h3, _⟩; exact absurd h3 htne
          · rw [submitGuess_wrong p s input hk hlock' hlen heq]
            have htle : s.totalAttempts ≤ 2 := by
              simp only [MAX_RETRIES] at hcap htne
              omega
            have hmin : min MAX_RETRIES (s.totalAttempts + 1) =
                s.totalAttempts + 1 := by
              simp only [MAX_RETRIES]
              omega
            have hnew : AttemptOK p s.guesses.length
                (Attempt.mk ((trimChars input).map jsToUpper)
                  (buildFeedback ((trimChars input).map jsToUpper)
                    (p.targetWords.getD s.guesses.length []))) := by
              refine ⟨?_, hlen, heq, rfl⟩
              rw [hginput]
              have hpos := TARGET_LENGTHS_pos s.guesses.length hk
              rw [hginput] at hlen
              have hne : input ≠ [] := by
                intro hnil
                rw [hnil] at hlen
                simp only [List.length_nil] at hlen
                exact absurd hlen.symm (Nat.pos_iff_ne_zero.mp hpos)
              simp only [isUpperWord, Bool.and_eq_true]
              refine ⟨?_, hin⟩
              rcases input with _ | ⟨c, cs⟩
              · exact absurd rfl hne
              · rfl
            have hokNew : ∀ i : Nat, ∀ a ∈
                (s.attemptsByStep.set s.guesses.length
                  ((s.attemptsByStep.getD s.guesses.length []) ++
                    [Attempt.mk ((trimChars input).map jsToUpper)
                      (buildFeedback ((trimChars input).map jsToUpper)
                        (p.targetWords.getD s.guesses.length []))])).getD i [],
                AttemptOK p i a := by
              intro i a ha
              by_cases his : s.guesses.length = i
              · subst his
                rw [List.getD_eq_getElem?_getD,
                  List.getElem?_set_self (by omega), Option.getD_some] at ha
                rcases List.mem_append.1 ha with hmem | hmem
                · exact hok _ a hmem
                · have ha2 : a = Attempt.mk ((trimChars input).map jsToUpper)
                      (buildFeedback ((trimChars input).map jsToUpper)
                        (p.targetWords.getD s.guesses.length [])) := by
                    simpa using hmem
                  rw [ha2]
                  exact hnew
              · rw [List.getD_eq_getElem?_getD,
                  List.getElem?_set_ne his] at ha
                exact hok i a (by rw [List.getD_eq_getElem?_getD]; exact ha)
            have hsum2 : ((s.attemptsByStep.set s.guesses.length
                ((s.attemptsByStep.getD s.guesses.length []) ++
                  [Attempt.mk ((trimChars input).map jsToUpper)
                    (buildFeedback ((trimChars input).map jsToUpper)
                      (p.targetWords.getD s.guesses.length []))])).map
                  List.length).sum = (s.attemptsByStep.map List.length).sum + 1 :=
              sum_map_length_set_append s.attemptsByStep s.guesses.length _
                (by omega)
            by_cases h3 : MAX_RETRIES ≤ min MAX_RETRIES (s.totalAttempts + 1)
            · rw [if_pos h3]
              refine ⟨hpre, hle, by simpa using hrows, hokNew, ?_, ?_, ?_⟩
              · show min MAX_RETRIES (s.totalAttempts + 1) = _
                rw [hmin, hsum2, hsum]
              · show min MAX_RETRIES (s.totalAttempts + 1) ≤ MAX_RETRIES
                exact min_le_left _ _
              · constructor
                · intro _
                  refine ⟨?_, hk⟩
                  show min MAX_RETRIES (s.totalAttempts + 1) = MAX_RETRIES
                  rw [hmin] at h3 ⊢
                  simp only [MAX_RETRIES] at h3 ⊢
                  omega
                · intro _; rfl
            · rw [if_neg h3]
              refine ⟨hpre, hle, by simpa using hrows, hokNew, ?_, ?_, ?_⟩
              · show min MAX_RETRIES (s.totalAttempts + 1) = _
                rw [hmin, hsum2, hsum]
              · show min MAX_RETRIES (s.totalAttempts + 1) ≤ MAX_RETRIES
                exact min_le_left _ _
              · show s.lockedOut = true ↔
                  (min MAX_RETRIES (s.totalAttempts + 1) = MAX_RETRIES ∧ _)
                rw [hlock', hmin]
                constructor
                · intro h; exact absurd h (by decide)
                · rintro ⟨hc, _⟩
                  rw [hmin] at h3
                  exact absurd (le_of_eq hc.symm) h3
        · rw [submitGuess_wrongLength p s input hk hlock' hlen]
          exact ⟨hpre, hle, hrows, hok, hsum, hcap, hlk⟩

lemma collectValidGuesses_nil (pairs : List (Nat × List Char)) :
    collectValidGuesses [] pairs = [] := by
  cases pairs with
  | nil => rfl
  | cons pr rest =>
    obtain ⟨len, target⟩ := pr
    simp [collectValidGuesses, normalizeWord]

lemma collectValidGuesses_cons (w : List Char) (raws : List JsValue)
    (len : Nat) (target : List Char) (pairs : List (Nat × List Char))
    (hu : isUpperWord w = true) (hl : w.length = len) (ht : w = target) :
    collectValidGuesses (JsValue.str w :: raws) ((len, target) :: pairs) =
      w :: collectValidGuesses raws pairs := by
  subst ht
  have hn : normalizeWord (JsValue.str w) len = w :=
    normalizeWord_upper w hu len hl
  have hne : w ≠ [] := by
    intro hnil
    rw [hnil] at hu
    exact absurd hu (by decide)
  simp only [collectValidGuesses, List.headD_cons, List.tail_cons, hn]
  rw [if_neg (by simp [List.isEmpty_iff, hne])]

lemma reconstructRow_roundtrip (target : List Char) (len : Nat)
    (row : List Attempt) :
    ∀ total : Nat,
      (∀ a ∈ row, isUpperWord a.guess = true ∧ a.guess.length = len ∧
        a.guess ≠ target ∧ a.feedback = buildFeedback a.guess target) →
      total + row.length ≤ MAX_RETRIES →
      reconstructRow (row.map (fun a => JsValue.str a.guess)) target len
        total = (row, total + row.length) := by
  induction row with
  | nil => intro total hall htot; simp [reconstructRow]
  | cons a rest ih =>
    intro total hall htot
    obtain ⟨hu, hl, hne, hf⟩ := hall a (List.mem_cons_self a rest)
    have hcap : ¬(MAX_RETRIES ≤ total) := by
      simp only [List.length_cons] at htot
      simp only [MAX_RETRIES] at htot ⊢
      omega
    have hnorm : normalizeWord (JsValue.str a.guess) len = a.guess :=
      normalizeWord_upper a.guess hu len hl
    have hgne : a.guess ≠ [] := by
      intro hnil
      rw [hnil] at hu
      exact absurd hu (by decide)
    simp only [List.map_cons, reconstructRow]
    rw [if_neg hcap, hnorm, if_neg (by simp [List.isEmpty_iff, hgne, hne])]
    rw [ih (total + 1) (fun b hb => hall b (List.mem_cons_of_mem a hb))
      (by simp only [List.length_cons] at htot; omega)]
    obtain ⟨g, fb⟩ := a
    simp only at hf
    rw [← hf, Prod.mk.injEq]
    refine ⟨rfl, ?_⟩
    simp only [List.length_cons]
    omega

lemma reconstructSteps_pairs_nil (rows : List JsValue) (total : Nat) :
    reconstructSteps rows [] total = ([], total) := rfl

lemma reconstructSteps_cons_arr (raws : List JsValue)
    (rowsRest : List JsValue) (len : Nat) (target : List Char)
    (pairs : List (Nat × List Char)) (total : Nat) :
    reconstructSteps (JsValue.arr raws :: rowsRest)
        ((len, target) :: pairs) total =
      ((reconstructRow raws target len total).1 ::
        (reconstructSteps rowsRest pairs
          (reconstructRow raws target len total).2).1,
       (reconstructSteps rowsRest pairs
         (reconstructRow raws target len total).2).2) := by
  simp only [reconstructSteps, List.headD_cons, List.tail_cons, isArray,
    asArray, if_true]

lemma collect_take (t0 t1 t2 t3 : List Char)
    (u0 : isUpperWord t0 = true) (l0 : t0.length = 6)
    (u1 : isUpperWord t1 = true) (l1 : t1.length = 5)
    (u2 : isUpperWord t2 = true) (l2 : t2.length = 4)
    (u3 : isUpperWord t3 = true) (l3 : t3.length = 3)
    (n : Nat) (hn : n ≤ 4) :
    collectValidGuesses (([t0, t1, t2, t3].take n).map JsValue.str)
      [(6, t0), (5, t1), (4, t2), (3, t3)] = [t0, t1, t2, t3].take n := by
  interval_cases n
  · simpa using collectValidGuesses_nil [(6, t0), (5, t1), (4, t2), (3, t3)]
  · simp only [List.take, List.map_cons, List.map_nil]
    rw [collectValidGuesses_cons t0 _ 6 t0 _ u0 l0 rfl,
      collectValidGuesses_nil]
  · simp only [List.take, List.map_cons, List.map_nil]
    rw [collectValidGuesses_cons t0 _ 6 t0 _ u0 l0 rfl,
      collectValidGuesses_cons t1 _ 5 t1 _ u1 l1 rfl,
      collectValidGuesses_nil]
  · simp only [List.take, List.map_cons, List.map_nil]
    rw [collectValidGuesses_cons t0 _ 6 t0 _ u0 l0 rfl,
      collectValidGuesses_cons t1 _ 5 t1 _ u1 l1 rfl,
      collectValidGuesses_cons t2 _ 4 t2 _ u2 l2 rfl,
      collectValidGuesses_nil]
  · simp only [List.take, List.map_cons, List.map_nil]
    rw [collectValidGuesses_cons t0 _ 6 t0 _ u0 l0 rfl,
      collectValidGuesses_cons t1 _ 5 t1 _ u1 l1 rfl,
      collectValidGuesses_cons t2 _ 4 t2 _ u2 l2 rfl,
      collectValidGuesses_cons t3 _ 3 t3 _ u3 l3 rfl,
      collectValidGuesses_nil]

lemma reconstruct_four_rows (t0 t1 t2 t3 : List Char)
    (r0 r1 r2 r3 : List Attempt)
    (h0 : ∀ a ∈ r0, isUpperWord a.guess = true ∧ a.guess.length = 6 ∧
      a.guess ≠ t0 ∧ a.feedback = buildFeedback a.guess t0)
    (h1 : ∀ a ∈ r1, isUpperWord a.guess = true ∧ a.guess.length = 5 ∧
      a.guess ≠ t1 ∧ a.feedback = buildFeedback a.guess t1)
    (h2 : ∀ a ∈ r2, isUpperWord a.guess = true ∧ a.guess.length = 4 ∧
      a.guess ≠ t2 ∧ a.feedback = buildFeedback a.guess t2)
    (h3 : ∀ a ∈ r3, isUpperWord a.guess = true ∧ a.guess.length = 3 ∧
      a.guess ≠ t3 ∧ a.feedback = buildFeedback a.guess t3)
    (hsum : r0.length + r1.length + r2.length + r3.length ≤ MAX_RETRIES) :
    reconstructSteps
      [JsValue.arr (r0.map (fun a => JsValue.str a.guess)),
       JsValue.arr (r1.map (fun a => JsValue.str a.guess)),
       JsValue.arr (r2.map (fun a => JsValue.str a.guess)),
       JsValue.arr (r3.map (fun a => JsValue.str a.guess))]
      [(6, t0), (5, t1), (4, t2), (3, t3)] 0 =
      ([r0, r1, r2, r3],
        r0.length + r1.length + r2.length + r3.length) := by
  have hc : MAX_RETRIES = 3 := rfl
  rw [reconstructSteps_cons_arr,
    reconstructRow_roundtrip t0 6 r0 0 h0 (by omega)]
  rw [show ((r0, 0 + r0.length) : List Attempt × Nat).2 = r0.length from by
    simp]
  rw [reconstructSteps_cons_arr,
    reconstructRow_roundtrip t1 5 r1 r0.length h1 (by omega)]
  rw [reconstructSteps_cons_arr,
    reconstructRow_roundtrip t2 4 r2 (r0.length + r1.length) h2 (by omega)]
  rw [reconstructSteps_cons_arr,
    reconstructRow_roundtrip t3 3 r3
      ((r0.length + r1.length) + r2.length) h3 (by omega)]
  rw [reconstructSteps_pairs_nil]

lemma sessionState_ext (x y : SessionState) (h1 : x.guesses = y.guesses)
    (h2 : x.attemptsByStep = y.attemptsByStep)
    (h3 : x.totalAttempts = y.totalAttempts)
    (h4 : x.lockedOut = y.lockedOut) : x = y := by
  cases x
  cases y
  simp only at h1 h2 h3 h4
  rw [h1, h2, h3, h4]

lemma saveRecord_date (d : List Char) (p : Puzzle) (s : SessionState) :
    getField (saveRecord d p s) ("date") = JsValue.str d := rfl

lemma saveRecord_startWord (d : List Char) (p : Puzzle) (s : SessionState) :
    getField (saveRecord d p s) ("startWord") = JsValue.str p.startWord := rfl

lemma saveRecord_guesses (d : List Char) (p : Puzzle) (s : SessionState) :
    getField (saveRecord d p s) ("guesses") =
      JsValue.arr (s.guesses.map JsValue.str) := rfl

lemma saveRecord_attempts (d : List Char) (p : Puzzle) (s : SessionState) :
    getField (saveRecord d p s) ("attemptsByStep") =
      JsValue.arr (s.attemptsByStep.map
        (fun row => JsValue.arr (row.map (fun a => JsValue.str a.guess)))) :=
  rfl

lemma saveRecord_total (d : List Char) (p : Puzzle) (s : SessionState) :
    getField (saveRecord d p s) ("totalAttempts") =
      JsValue.num (s.totalAttempts : Rat) := rfl

lemma saveRecord_locked (d : List Char) (p : Puzzle) (s : SessionState) :
    getField (saveRecord d p s) ("lockedOut") =
      JsValue.bool s.lockedOut := rfl

lemma saveRecord_failed (d : List Char) (p : Puzzle) (s : SessionState) :
    getField (saveRecord d p s) ("failed") = JsValue.undef := rfl

lemma strictEqStr_self (s : List Char) :
    strictEqStr (JsValue.str s) s = true := by
  simp [strictEqStr]

lemma passChecks_save (d : List Char) (p : Puzzle) (s : SessionState) :
    passChecks (saveRecord d p s) d p = true := by
  simp only [passChecks, saveRecord_date, saveRecord_startWord,
    saveRecord_guesses, strictEqStr_self]
  rfl

/-- C3: every state the machine reaches against a well-formed puzzle,
saved through the persistence effect and restored against the same date and
puzzle, comes back unchanged: same solved guesses, same attempts per stage
in order with feedback recomputed identically, same retry counter, same
lockout flag. -/
theorem C3_save_restore_roundtrip (d : List Char) (p : Puzzle)
    (s : SessionState) (hp : puzzleWF p = true) (hr : Reachable p s) :
    loadStoredState (some (saveRecord d p s)) d p = s := by
  obtain ⟨hpre, hle, hrows4, hok, hsum, hcap, hlk⟩ := reachable_WF p hp s hr
  obtain ⟨t0, t1, t2, t3, htw, l0, u0, l1, u1, l2, u2, l3, u3⟩ :=
    puzzleWF_destruct p hp
  obtain ⟨r0, r1, r2, r3, hrw⟩ :
      ∃ a b c e, s.attemptsByStep = [a, b, c, e] := by
    rcases hx : s.attemptsByStep with _ | ⟨a, _ | ⟨b, _ | ⟨c, _ | ⟨e, _ | ⟨f, l⟩⟩⟩⟩⟩ <;>
      rw [hx] at hrows4 <;> simp at hrows4
    exact ⟨a, b, c, e, rfl⟩
  rw [htw] at hpre
  have hrowOK : ∀ (i : Nat) (t : List Char) (len : Nat) (r : List Attempt),
      s.attemptsByStep.getD i [] = r →
      TARGET_LENGTHS.getD i 0 = len → p.targetWords.getD i [] = t →
      ∀ a ∈ r, isUpperWord a.guess = true ∧ a.guess.length = len ∧
        a.guess ≠ t ∧ a.feedback = buildFeedback a.guess t := by
    intro i t len r hri hlen htg a ha
    have := hok i a (by rw [hri]; exact ha)
    obtain ⟨x1, x2, x3, x4⟩ := this
    rw [hlen] at x2
    rw [htg] at x3 x4
    exact ⟨x1, x2, x3, x4⟩
  have h0 := hrowOK 0 t0 6 r0 (by rw [hrw]; rfl) rfl (by rw [htw]; rfl)
  have h1 := hrowOK 1 t1 5 r1 (by rw [hrw]; rfl) rfl (by rw [htw]; rfl)
  have h2 := hrowOK 2 t2 4 r2 (by rw [hrw]; rfl) rfl (by rw [htw]; rfl)
  have h3 := hrowOK 3 t3 3 r3 (by rw [hrw]; rfl) rfl (by rw [htw]; rfl)
  have hsumN : s.totalAttempts =
      r0.length + r1.length + r2.length + r3.length := by
    rw [hrw] at hsum
    simp only [List.map_cons, List.map_nil, List.sum_cons,
      List.sum_nil] at hsum
    omega
  have hpass := passChecks_save d p s
  have hzip : TARGET_LENGTHS.zip p.targetWords =
      [(6, t0), (5, t1), (4, t2), (3, t3)] := by
    rw [htw]
    rfl
  have hcollect : collectValidGuesses
      (asArray (getField (saveRecord d p s) ("guesses")))
      (TARGET_LENGTHS.zip p.targetWords) = s.guesses := by
    rw [show asArray (getField (saveRecord d p s) ("guesses")) =
      s.guesses.map JsValue.str from rfl, hzip]
    rw [hpre]
    exact collect_take t0 t1 t2 t3 u0 l0 u1 l1 u2 l2 u3 l3
      s.guesses.length hle
  have hrecon : reconstructAttempts (saveRecord d p s) p =
      ([r0, r1, r2, r3], s.totalAttempts) := by
    unfold reconstructAttempts
    rw [saveRecord_attempts]
    simp only [isArray, eq_self_iff_true, if_true]
    rw [show asArray (JsValue.arr (s.attemptsByStep.map
      (fun row => JsValue.arr (row.map (fun a => JsValue.str a.guess))))) =
      s.attemptsByStep.map
        (fun row => JsValue.arr (row.map (fun a => JsValue.str a.guess)))
      from rfl]
    rw [hzip, hrw]
    simp only [List.map_cons, List.map_nil]
    rw [reconstruct_four_rows t0 t1 t2 t3 r0 r1 r2 r3 h0 h1 h2 h3
      (by omega)]
    rw [Prod.mk.injEq]
    exact ⟨rfl, hsumN.symm⟩
  have hrecT : reconciledTotal (saveRecord d p s) p =
      min (MAX_RETRIES : Int)
        (max ((reconstructAttempts (saveRecord d p s) p).2 : Int)
          (s.totalAttempts : Int)) := rfl
  have hrecT2 : reconciledTotal (saveRecord d p s) p =
      (s.totalAttempts : Int) := by
    rw [hrecT, hrecon]
    simp only [max_self]
    rw [min_eq_right (by exact_mod_cast hcap)]
  refine sessionState_ext _ _ ?_ ?_ ?_ ?_
  · rw [loadStoredState_eq _ _ _ hpass]
    exact hcollect
  · rw [loadStoredState_eq _ _ _ hpass]
    show (reconstructAttempts (saveRecord d p s) p).1 = s.attemptsByStep
    rw [hrecon]
    exact hrw.symm
  · rw [loadStoredState_eq _ _ _ hpass]
    show (min (MAX_RETRIES : Int)
      (reconciledTotal (saveRecord d p s) p)).toNat = s.totalAttempts
    rw [hrecT2, min_eq_right (by exact_mod_cast hcap), Int.toNat_natCast]
  · rw [loadStoredState_eq _ _ _ hpass]
    show (if TARGET_LENGTHS.length ≤
        (collectValidGuesses
          (asArray (getField (saveRecord d p s) ("guesses")))
          (TARGET_LENGTHS.zip p.targetWords)).length then false
      else truthy (getField (saveRecord d p s) ("lockedOut")) ||
        truthy (getField (saveRecord d p s) ("failed")) ||
        decide ((MAX_RETRIES : Int) ≤
          reconciledTotal (saveRecord d p s) p)) = s.lockedOut
    rw [hcollect, hrecT2, saveRecord_locked, saveRecord_failed]
    simp only [truthy, Bool.or_false]
    by_cases hn4 : TARGET_LENGTHS.length ≤ s.guesses.length
    · rw [if_pos hn4]
      symm
      rw [Bool.eq_false_iff]
      intro hcontra
      have := (hlk.mp hcontra).2
      rw [show TARGET_LENGTHS.length = 4 from rfl] at hn4
      omega
    · rw [if_neg hn4]
      rw [show TARGET_LENGTHS.length = 4 from rfl] at hn4
      cases hb : s.lockedOut with
      | true => rfl
      | false =>
        have hne3 : s.totalAttempts ≠ MAX_RETRIES := by
          intro hcontra
          have := hlk.mpr ⟨hcontra, by omega⟩
          rw [hb] at this
          exact absurd this (by decide)
        have : ¬((MAX_RETRIES : Int) ≤ (s.totalAttempts : Int)) := by
          simp only [MAX_RETRIES] at hne3 hcap ⊢
          exact_mod_cast by omega
        simp [this]

/-- Witness for C3: the empty state round-trips on the sample puzzle. -/
theorem C3_save_restore_roundtrip_witness :
    loadStoredState
      (some (saveRecord ("2024-01-01".toList) samplePuzzle
        createEmptyState)) ("2024-01-01".toList) samplePuzzle =
      createEmptyState :=
  C3_save_restore_roundtrip ("2024-01-01".toList) samplePuzzle
    createEmptyState (by decide) Reachable.empty

end ShrinkRay
